import Mathlib

/-!
Shallow embedding of the ThrottleAI admission-control governor.

The definitions below are translated from the TypeScript source:
  * `src/utils/retry.ts`       → `clampRetry`
  * `src/pools/concurrency.ts` → `ConcurrencyPool` (weighted version with `effectiveMax`)
  * `src/pools/rate.ts`        → `RatePool` (head-pointer rolling window)
  * `src/pools/tokenRate.ts`   → `TokenRatePool` (head-pointer version) and
                                 `TokenRatePoolShift` (naive shift version)
  * `src/fairness.ts`          → `FairnessTracker`
  * `src/adaptive.ts`          → `AdaptiveController`
  * `src/leaseStore.ts`        → `LeaseStore`
  * `src/governor.ts`          → `Governor` (the full facade: concurrency, fairness,
                                 request-rate, token-rate, adaptive, strict mode)

Conventions of the embedding:
  * JavaScript `number` values holding millisecond timestamps are modelled as `Int`;
    weights, counts and token amounts as `Nat`; values on which the source performs
    non-integral arithmetic (EMA factors, the pressure heuristic) as `Rat`.
    `Math.round` is `round : ℚ → ℤ` (both round half toward +∞ for the values involved).
  * JavaScript `Map` objects are modelled as association lists (`List (String × _)`)
    with insert-or-overwrite `mapSet`, first-occurrence `mapDelete` and `mapGet`,
    preserving insertion order exactly as ES2015 `Map` does.
  * The clock is the explicit `now : ℤ` argument of every operation (the source reads
    an injected clock; all reads within one operation see the same test-clock value).
  * Mutating methods become functions returning the updated structure.
-/

namespace ThrottleAI

/-- Caller priority level (`src/types.ts`). -/
inductive Priority
  | interactive
  | background
deriving DecidableEq, Repr

/-- Minimum retryAfterMs returned to callers (`src/utils/retry.ts`). -/
def RETRY_MIN_MS : ℤ := 25

/-- Maximum retryAfterMs returned to callers (`src/utils/retry.ts`). -/
def RETRY_MAX_MS : ℤ := 5000

/-- `clampRetry` from `src/utils/retry.ts`:
`Math.max(RETRY_MIN_MS, Math.min(RETRY_MAX_MS, Math.round(ms)))`. -/
def clampRetry (ms : ℚ) : ℤ :=
  max RETRY_MIN_MS (min RETRY_MAX_MS (round ms))

/-- Result of a pool admission check (`PoolResult` / `RateResult` / `TokenRateResult`). -/
structure PoolResult where
  ok : Bool
  retryAfterMs : Option ℤ
  reason : Option String
deriving DecidableEq, Repr

/-- Weight-aware concurrency pool (`src/pools/concurrency.ts`). -/
structure ConcurrencyPool where
  maxWeight : ℕ
  reserveWeight : ℕ
  effectiveMax : ℕ
  inFlightWeight : ℕ
deriving DecidableEq, Repr

namespace ConcurrencyPool

/-- Constructor of `ConcurrencyPool`: throws when `interactiveReserve ≥ maxInFlight`. -/
def mk? (maxInFlight : ℕ) (interactiveReserve : Option ℕ) : Option ConcurrencyPool :=
  let reserve := interactiveReserve.getD 0
  if maxInFlight ≤ reserve then none
  else some { maxWeight := maxInFlight, reserveWeight := reserve,
              effectiveMax := maxInFlight, inFlightWeight := 0 }

/-- `_computeRetry`: precise earliest-expiry hint when positive, otherwise the
pressure heuristic `round(250 + pressure * 750)` with `pressure = inFlight / (effectiveMax || 1)`. -/
def computeRetry (p : ConcurrencyPool) (earliestExpiryMs : Option ℤ) : ℤ :=
  let fallback : ℤ :=
    let eff : ℕ := if p.effectiveMax = 0 then 1 else p.effectiveMax
    clampRetry (250 + ((p.inFlightWeight : ℚ) / (eff : ℚ)) * 750)
  match earliestExpiryMs with
  | some e => if 0 < e then clampRetry (e : ℚ) else fallback
  | none => fallback

/-- `tryAcquire(priority, earliestExpiryMs?, weight = 1)`. -/
def tryAcquire (p : ConcurrencyPool) (priority : Priority)
    (earliestExpiryMs : Option ℤ) (weight : ℕ) : PoolResult × ConcurrencyPool :=
  let availableWeight : ℤ := (p.effectiveMax : ℤ) - (p.inFlightWeight : ℤ)
  if availableWeight < (weight : ℤ) then
    ({ ok := false, retryAfterMs := some (p.computeRetry earliestExpiryMs),
       reason := some "concurrency" }, p)
  else if priority = Priority.background ∧
      availableWeight - (weight : ℤ) < (p.reserveWeight : ℤ) then
    ({ ok := false, retryAfterMs := some (p.computeRetry earliestExpiryMs),
       reason := some "concurrency" }, p)
  else
    ({ ok := true, retryAfterMs := none, reason := none },
     { p with inFlightWeight := p.inFlightWeight + weight })

/-- `release(weight)`: `Math.max(0, inFlight - weight)` is `Nat` subtraction. -/
def release (p : ConcurrencyPool) (weight : ℕ) : ConcurrencyPool :=
  { p with inFlightWeight := p.inFlightWeight - weight }

/-- The `effectiveMax` setter: clamped to `[1, maxWeight]`. -/
def setEffectiveMax (p : ConcurrencyPool) (value : ℕ) : ConcurrencyPool :=
  { p with effectiveMax := max 1 (min p.maxWeight value) }

end ConcurrencyPool

/-- Length of the prefix of a timestamp list whose entries satisfy `ts ≤ cutoff`.
This is the number of iterations of the prune `while` loop of `src/pools/rate.ts`. -/
def pruneCount (cutoff : ℤ) : List ℤ → ℕ
  | [] => 0
  | t :: rest => if t ≤ cutoff then pruneCount cutoff rest + 1 else 0

/-- Request-rate pool (`src/pools/rate.ts`): rolling window of timestamps with a
head index pointer advanced on prune and occasionally compacted. -/
structure RatePool where
  limit : ℕ
  windowMs : ℤ
  timestamps : List ℤ
  head : ℕ
deriving DecidableEq, Repr

namespace RatePool

/-- The live (not yet pruned) portion of the window. -/
def live (p : RatePool) : List ℤ :=
  p.timestamps.drop p.head

/-- `_size()`: `timestamps.length - head`. -/
def size (p : RatePool) : ℕ :=
  p.timestamps.length - p.head

/-- `_prune()`: advance `head` past entries with `timestamp ≤ now - windowMs`, then
compact (`splice` the dead prefix away) when `head > 1024 && head > length >> 1`. -/
def prune (p : RatePool) (now : ℤ) : RatePool :=
  let cutoff := now - p.windowMs
  let head' := p.head + pruneCount cutoff (p.timestamps.drop p.head)
  if 1024 < head' ∧ p.timestamps.length / 2 < head' then
    { p with timestamps := p.timestamps.drop head', head := 0 }
  else
    { p with head := head' }

/-- `tryAcquire()`: prune, deny when the live count reached the cap. -/
def tryAcquire (p : RatePool) (now : ℤ) : PoolResult × RatePool :=
  let p := p.prune now
  if p.limit ≤ p.size then
    let oldest : ℤ := (p.timestamps.get? p.head).getD 0
    ({ ok := false, retryAfterMs := some (clampRetry ((oldest + p.windowMs - now : ℤ) : ℚ)),
       reason := some "rate" }, p)
  else
    ({ ok := true, retryAfterMs := none, reason := none }, p)

/-- `record()`: push the current timestamp. -/
def record (p : RatePool) (now : ℤ) : RatePool :=
  { p with timestamps := p.timestamps ++ [now] }

/-- `currentCount` getter: prunes, then returns the live count. -/
def currentCount (p : RatePool) (now : ℤ) : ℕ × RatePool :=
  let p := p.prune now
  (p.size, p)

end RatePool

/-- A rolling-window token entry (`TokenEntry` in `src/pools/tokenRate.ts`). -/
structure TokenEntry where
  timestamp : ℤ
  tokens : ℕ
  leaseId : Option String
deriving DecidableEq, Repr

/-- Replace the first entry (in list order) whose `leaseId` matches, leaving the
rest unchanged. -/
def replaceFirstMatch (id : String) (tok : ℕ) : List TokenEntry → List TokenEntry
  | [] => []
  | e :: rest =>
      if e.leaseId = some id then { e with tokens := tok } :: rest
      else e :: replaceFirstMatch id tok rest

/-- `updateActual`'s search: iterate from the tail and replace the first match found,
i.e. replace the last matching entry in list order. -/
def updateLastMatch (es : List TokenEntry) (id : String) (tok : ℕ) : List TokenEntry :=
  (replaceFirstMatch id tok es.reverse).reverse

/-- Number of iterations of the token-prune `while` loop: length of the prefix with
`timestamp ≤ cutoff`. -/
def tokenPruneCount (cutoff : ℤ) : List TokenEntry → ℕ
  | [] => 0
  | e :: rest => if e.timestamp ≤ cutoff then tokenPruneCount cutoff rest + 1 else 0

/-- Sum of the `tokens` fields of a list of entries. -/
def sumTokens (es : List TokenEntry) : ℕ :=
  (es.map TokenEntry.tokens).sum

/-- `_computeRetryMs`'s oldest-first walk: accumulate freed tokens and return the
expiry-based hint of the first entry whose removal makes `freed ≥ surplus`. -/
def retryWalk (now windowMs surplus : ℤ) : List TokenEntry → ℤ → Option ℤ
  | [], _ => none
  | e :: rest, freed =>
      let freed' := freed + (e.tokens : ℤ)
      if surplus ≤ freed' then some (e.timestamp + windowMs - now)
      else retryWalk now windowMs surplus rest freed'

/-- Token-rate pool, head-pointer version (`src/pools/tokenRate.ts`, first class). -/
structure TokenRatePool where
  limit : ℕ
  windowMs : ℤ
  entries : List TokenEntry
  head : ℕ
deriving DecidableEq, Repr

namespace TokenRatePool

/-- The live (not yet pruned) portion of the window. -/
def live (p : TokenRatePool) : List TokenEntry :=
  p.entries.drop p.head

/-- `_prune()`: advance `head`, occasionally compact, as in `RatePool.prune`. -/
def prune (p : TokenRatePool) (now : ℤ) : TokenRatePool :=
  let cutoff := now - p.windowMs
  let head' := p.head + tokenPruneCount cutoff (p.entries.drop p.head)
  if 1024 < head' ∧ p.entries.length / 2 < head' then
    { p with entries := p.entries.drop head', head := 0 }
  else
    { p with head := head' }

/-- `_computeRetryMs(needed)`: oldest-first walk over the live entries; when even all
live entries are not enough, fall back to the last entry of the **whole** backing
array (which may be an already-pruned one), or `windowMs` when the array is empty. -/
def computeRetryMs (p : TokenRatePool) (now : ℤ) (needed : ℕ) : ℤ :=
  let surplus : ℤ := (sumTokens p.live : ℤ) + (needed : ℤ) - (p.limit : ℤ)
  if surplus ≤ 0 then 0
  else
    match retryWalk now p.windowMs surplus p.live 0 with
    | some v => v
    | none =>
        match p.entries.getLast? with
        | some last => last.timestamp + p.windowMs - now
        | none => p.windowMs

/-- `tryAcquire(estimatedTokens)`. -/
def tryAcquire (p : TokenRatePool) (now : ℤ) (estimatedTokens : ℕ) :
    PoolResult × TokenRatePool :=
  let p := p.prune now
  if p.limit < sumTokens p.live + estimatedTokens then
    ({ ok := false, retryAfterMs := some (clampRetry ((p.computeRetryMs now estimatedTokens : ℤ) : ℚ)),
       reason := some "rate" }, p)
  else
    ({ ok := true, retryAfterMs := none, reason := none }, p)

/-- `record(estimatedTokens, leaseId?)`: push an entry. -/
def record (p : TokenRatePool) (now : ℤ) (estimatedTokens : ℕ) (leaseId : Option String) :
    TokenRatePool :=
  { p with entries := p.entries ++ [{ timestamp := now, tokens := estimatedTokens, leaseId }] }

/-- `updateActual(leaseId, actualTokens)`: search from the tail down to `head`,
replace the first match; no-op when the entry was already pruned. -/
def updateActual (p : TokenRatePool) (leaseId : String) (actualTokens : ℕ) : TokenRatePool :=
  { p with entries := p.entries.take p.head ++ updateLastMatch (p.entries.drop p.head) leaseId actualTokens }

/-- `currentTokens` getter: prune, then sum the live entries. -/
def currentTokens (p : TokenRatePool) (now : ℤ) : ℕ × TokenRatePool :=
  let p := p.prune now
  (sumTokens p.live, p)

end TokenRatePool

/-- Token-rate pool, naive shift version (`src/pools/tokenRate.ts`, second class). -/
structure TokenRatePoolShift where
  limit : ℕ
  windowMs : ℤ
  entries : List TokenEntry
deriving DecidableEq, Repr

namespace TokenRatePoolShift

/-- `_prune()`: `shift()` entries from the front while `timestamp ≤ cutoff`. -/
def pruneList (cutoff : ℤ) : List TokenEntry → List TokenEntry
  | [] => []
  | e :: rest => if e.timestamp ≤ cutoff then pruneList cutoff rest else e :: rest

/-- `_prune()` on the pool. -/
def prune (p : TokenRatePoolShift) (now : ℤ) : TokenRatePoolShift :=
  { p with entries := pruneList (now - p.windowMs) p.entries }

/-- `_computeRetryMs(needed)` of the shift version: identical walk, but the fallback
last entry is read from the (fully pruned) entries array. -/
def computeRetryMs (p : TokenRatePoolShift) (now : ℤ) (needed : ℕ) : ℤ :=
  let surplus : ℤ := (sumTokens p.entries : ℤ) + (needed : ℤ) - (p.limit : ℤ)
  if surplus ≤ 0 then 0
  else
    match retryWalk now p.windowMs surplus p.entries 0 with
    | some v => v
    | none =>
        match p.entries.getLast? with
        | some last => last.timestamp + p.windowMs - now
        | none => p.windowMs

/-- `tryAcquire(estimatedTokens)`. -/
def tryAcquire (p : TokenRatePoolShift) (now : ℤ) (estimatedTokens : ℕ) :
    PoolResult × TokenRatePoolShift :=
  let p := p.prune now
  if p.limit < sumTokens p.entries + estimatedTokens then
    ({ ok := false, retryAfterMs := some (clampRetry ((p.computeRetryMs now estimatedTokens : ℤ) : ℚ)),
       reason := some "rate" }, p)
  else
    ({ ok := true, retryAfterMs := none, reason := none }, p)

/-- `record(estimatedTokens, leaseId?)`. -/
def record (p : TokenRatePoolShift) (now : ℤ) (estimatedTokens : ℕ) (leaseId : Option String) :
    TokenRatePoolShift :=
  { p with entries := p.entries ++ [{ timestamp := now, tokens := estimatedTokens, leaseId }] }

/-- `updateActual(leaseId, actualTokens)`: search the whole array from the tail. -/
def updateActual (p : TokenRatePoolShift) (leaseId : String) (actualTokens : ℕ) :
    TokenRatePoolShift :=
  { p with entries := updateLastMatch p.entries leaseId actualTokens }

/-- `currentTokens` getter. -/
def currentTokens (p : TokenRatePoolShift) (now : ℤ) : ℕ × TokenRatePoolShift :=
  let p := p.prune now
  (sumTokens p.entries, p)

end TokenRatePoolShift

/-- `Map.get`: value of the first (unique, by `mapSet`) binding of `k`. -/
def mapGet {α : Type} (m : List (String × α)) (k : String) : Option α :=
  match m with
  | [] => none
  | kv :: rest => if kv.1 = k then some kv.2 else mapGet rest k

/-- `Map.set`: overwrite in place when the key exists, append otherwise
(ES2015 insertion-order semantics). -/
def mapSet {α : Type} (m : List (String × α)) (k : String) (v : α) : List (String × α) :=
  match m with
  | [] => [(k, v)]
  | kv :: rest => if kv.1 = k then (k, v) :: rest else kv :: mapSet rest k v

/-- `Map.delete`: remove the first binding of `k`. -/
def mapDelete {α : Type} (m : List (String × α)) (k : String) : List (String × α) :=
  match m with
  | [] => []
  | kv :: rest => if kv.1 = k then rest else kv :: mapDelete rest k

/-- Fairness tracker (`src/fairness.ts`). -/
structure FairnessTracker where
  softCapRatio : ℚ
  starvationWindowMs : ℤ
  actorWeight : List (String × ℕ)
  deniedAt : List (String × ℤ)
deriving DecidableEq, Repr

namespace FairnessTracker

/-- `check(actorId, requestWeight, maxWeight, currentInFlight)`: soft cap with
under-pressure gating and the one-shot anti-starvation pass (which clears the
recorded denial timestamp when consumed). -/
def check (t : FairnessTracker) (actorId : String) (requestWeight : ℕ)
    (maxWeight : ℕ) (currentInFlight : ℕ) (now : ℤ) : Bool × FairnessTracker :=
  let actorCurrent := (mapGet t.actorWeight actorId).getD 0
  let softCap : ℚ := (maxWeight : ℚ) * t.softCapRatio
  if (currentInFlight : ℚ) < (maxWeight : ℚ) * (1 / 2) then (true, t)
  else if softCap < ((actorCurrent : ℚ) + (requestWeight : ℚ)) then
    match mapGet t.deniedAt actorId with
    | some lastDenied =>
        if now - lastDenied < t.starvationWindowMs then
          (true, { t with deniedAt := mapDelete t.deniedAt actorId })
        else (false, t)
    | none => (false, t)
  else (true, t)

/-- `recordAcquire(actorId, weight)`. -/
def recordAcquire (t : FairnessTracker) (actorId : String) (weight : ℕ) : FairnessTracker :=
  let current := (mapGet t.actorWeight actorId).getD 0
  { t with actorWeight := mapSet t.actorWeight actorId (current + weight) }

/-- `recordRelease(actorId, weight)`: clamp at zero; drop the entry at zero. -/
def recordRelease (t : FairnessTracker) (actorId : String) (weight : ℕ) : FairnessTracker :=
  let current := (mapGet t.actorWeight actorId).getD 0
  let next := current - weight
  if next = 0 then { t with actorWeight := mapDelete t.actorWeight actorId }
  else { t with actorWeight := mapSet t.actorWeight actorId next }

/-- `recordDenial(actorId)`. -/
def recordDenial (t : FairnessTracker) (actorId : String) (now : ℤ) : FairnessTracker :=
  { t with deniedAt := mapSet t.deniedAt actorId now }

end FairnessTracker

/-- EMA-based adaptive controller (`src/adaptive.ts`). -/
structure AdaptiveController where
  alpha : ℚ
  targetDenyRate : ℚ
  latencyThreshold : ℚ
  adjustIntervalMs : ℤ
  minConcurrency : ℕ
  maxConcurrency : ℕ
  effectiveConcurrency : ℕ
  emaLatency : ℚ
  baselineLatency : ℚ
  emaDenyRate : ℚ
  intervalAcquires : ℕ
  intervalDenials : ℕ
  latencySamples : List ℚ
  lastAdjust : ℤ
  hasBaseline : Bool
deriving DecidableEq, Repr

namespace AdaptiveController

/-- `recordAcquire()`. -/
def recordAcquire (a : AdaptiveController) : AdaptiveController :=
  { a with intervalAcquires := a.intervalAcquires + 1 }

/-- `recordDenial()`. -/
def recordDenial (a : AdaptiveController) : AdaptiveController :=
  { a with intervalDenials := a.intervalDenials + 1 }

/-- `recordLatency(latencyMs)`: only positive samples are kept. -/
def recordLatency (a : AdaptiveController) (latencyMs : ℚ) : AdaptiveController :=
  if 0 < latencyMs then { a with latencySamples := a.latencySamples ++ [latencyMs] }
  else a

/-- `_shouldReduce()`. -/
def shouldReduce (a : AdaptiveController) : Bool :=
  if a.targetDenyRate < a.emaDenyRate then true
  else if a.hasBaseline ∧ 0 < a.baselineLatency ∧
      a.baselineLatency * a.latencyThreshold < a.emaLatency then true
  else false

/-- `_shouldIncrease()`. -/
def shouldIncrease (a : AdaptiveController) : Bool :=
  if a.maxConcurrency ≤ a.effectiveConcurrency then false
  else
    let denyHealthy : Bool := decide (a.emaDenyRate < a.targetDenyRate * (1 / 2))
    let latencyHealthy : Bool := (! a.hasBaseline) || decide (a.baselineLatency = 0) ||
      decide (a.emaLatency ≤ a.baselineLatency * (11 / 10))
    denyHealthy && latencyHealthy

/-- `_adjust()`: update the EMAs, capture the baseline, move the effective
concurrency by at most one unit, reset the interval counters. -/
def adjust (a : AdaptiveController) : AdaptiveController :=
  let total := a.intervalAcquires + a.intervalDenials
  let a :=
    if 0 < total then
      let intervalDenyRate : ℚ := (a.intervalDenials : ℚ) / (total : ℚ)
      { a with emaDenyRate := a.alpha * intervalDenyRate + (1 - a.alpha) * a.emaDenyRate }
    else a
  let a :=
    if 0 < a.latencySamples.length then
      let avgLatency : ℚ := a.latencySamples.sum / (a.latencySamples.length : ℚ)
      let a := { a with emaLatency := a.alpha * avgLatency + (1 - a.alpha) * a.emaLatency }
      if ! a.hasBaseline then { a with baselineLatency := avgLatency, hasBaseline := true }
      else a
    else a
  let a :=
    if a.shouldReduce then
      { a with effectiveConcurrency := max a.minConcurrency (a.effectiveConcurrency - 1) }
    else if a.shouldIncrease then
      { a with effectiveConcurrency := min a.maxConcurrency (a.effectiveConcurrency + 1) }
    else a
  { a with intervalAcquires := 0, intervalDenials := 0, latencySamples := [] }

/-- `maybeAdjust(now)`: self-clocked on a minimum-interval guard. -/
def maybeAdjust (a : AdaptiveController) (now : ℤ) : AdaptiveController × ℕ :=
  if a.lastAdjust = 0 then ({ a with lastAdjust := now }, a.effectiveConcurrency)
  else if now - a.lastAdjust < a.adjustIntervalMs then (a, a.effectiveConcurrency)
  else
    let a := a.adjust
    let a := { a with lastAdjust := now }
    (a, a.effectiveConcurrency)

end AdaptiveController

/-- Token/weight estimate attached to an acquire request (`src/types.ts`). -/
structure Estimate where
  weight : Option ℕ
  promptTokens : Option ℕ
  maxOutputTokens : Option ℕ
deriving DecidableEq, Repr

/-- A lease record (`src/types.ts`). -/
structure Lease where
  leaseId : String
  actorId : String
  action : String
  priority : Priority
  expiresAt : ℤ
  estimate : Option Estimate
  idempotencyKey : Option String
  createdAt : ℤ
  weight : ℕ
deriving DecidableEq, Repr

/-- JavaScript string truthiness used by `if (lease.idempotencyKey)` and
`if (request.idempotencyKey)`: present and non-empty. -/
def truthyKey (k : Option String) : Option String :=
  match k with
  | some s => if s = "" then none else some s
  | none => none

/-- Lease store (`src/leaseStore.ts`): primary map `leaseId → Lease` and secondary
map `idempotencyKey → leaseId`. -/
structure LeaseStore where
  leases : List (String × Lease)
  byIdempotency : List (String × String)
deriving DecidableEq, Repr

namespace LeaseStore

/-- The empty store produced by the constructor. -/
def empty : LeaseStore := { leases := [], byIdempotency := [] }

/-- `add(lease)`: insert, and index by `idempotencyKey` when truthy. -/
def add (s : LeaseStore) (l : Lease) : LeaseStore :=
  let leases := mapSet s.leases l.leaseId l
  match truthyKey l.idempotencyKey with
  | some k => { leases, byIdempotency := mapSet s.byIdempotency k l.leaseId }
  | none => { leases, byIdempotency := s.byIdempotency }

/-- `get(leaseId)`. -/
def get (s : LeaseStore) (leaseId : String) : Option Lease :=
  mapGet s.leases leaseId

/-- `remove(leaseId)`: delete both entries, return the prior value or none. -/
def remove (s : LeaseStore) (leaseId : String) : Option Lease × LeaseStore :=
  match mapGet s.leases leaseId with
  | none => (none, s)
  | some l =>
      let leases := mapDelete s.leases leaseId
      match truthyKey l.idempotencyKey with
      | some k => (some l, { leases, byIdempotency := mapDelete s.byIdempotency k })
      | none => (some l, { leases, byIdempotency := s.byIdempotency })

/-- `getByIdempotencyKey(key)`: lookup through the secondary index, cleaning up a
stale index entry when the underlying lease is gone. -/
def getByIdempotencyKey (s : LeaseStore) (key : String) : Option Lease × LeaseStore :=
  match mapGet s.byIdempotency key with
  | none => (none, s)
  | some leaseId =>
      match mapGet s.leases leaseId with
      | none => (none, { s with byIdempotency := mapDelete s.byIdempotency key })
      | some l => (some l, s)

/-- `size` getter. -/
def size (s : LeaseStore) : ℕ := s.leases.length

/-- Modelled from the spec: `LeaseStore.earliestExpiry()` is called by the governor
(`this._store.earliestExpiry()`) but its definition is not present under `src`;
the spec defines it as the minimum `expires_at` among all leases, or none when the
store is empty. -/
def earliestExpiry (s : LeaseStore) : Option ℤ :=
  (s.leases.map (fun kv => kv.2.expiresAt)).min?

/-- `sweep(now)` / `_sweep()`: remove and return every lease with `expiresAt ≤ now`,
deleting the idempotency index entries of the reaped leases. -/
def sweep (s : LeaseStore) (now : ℤ) : List Lease × LeaseStore :=
  let expired := (s.leases.filter (fun kv => kv.2.expiresAt ≤ now)).map (fun kv => kv.2)
  let leases := s.leases.filter (fun kv => ! kv.2.expiresAt ≤ now)
  let byIdempotency := expired.foldl
    (fun m l =>
      match truthyKey l.idempotencyKey with
      | some k => mapDelete m k
      | none => m)
    s.byIdempotency
  (expired, { leases, byIdempotency })

end LeaseStore

/-- `config.concurrency` (`src/types.ts`). -/
structure ConcurrencyConfig where
  maxInFlight : ℕ
  interactiveReserve : Option ℕ
deriving DecidableEq, Repr

/-- `config.rate`. -/
structure RateConfig where
  requestsPerMinute : Option ℕ
  tokensPerMinute : Option ℕ
  windowMs : Option ℤ
deriving DecidableEq, Repr

/-- `config.fairness` when given as an object (a bare `true` is the empty object). -/
structure FairnessConfig where
  softCapRatio : Option ℚ
  starvationWindowMs : Option ℤ
deriving DecidableEq, Repr

/-- `config.adaptive` when given as an object (a bare `true` is the empty object). -/
structure AdaptiveConfig where
  alpha : Option ℚ
  targetDenyRate : Option ℚ
  latencyThreshold : Option ℚ
  adjustIntervalMs : Option ℤ
  minConcurrency : Option ℕ
deriving DecidableEq, Repr

/-- `GovernorConfig` (event handler omitted: handlers receive events but never
change governor state, and their errors are swallowed). -/
structure GovernorConfig where
  concurrency : Option ConcurrencyConfig
  rate : Option RateConfig
  fairness : Option FairnessConfig
  adaptive : Option AdaptiveConfig
  leaseTtlMs : Option ℤ
  strict : Option Bool
deriving DecidableEq, Repr

/-- `AcquireRequest`. -/
structure AcquireRequest where
  actorId : String
  action : String
  priority : Option Priority
  estimate : Option Estimate
  idempotencyKey : Option String
deriving DecidableEq, Repr

/-- `usage` inside a release report. -/
structure Usage where
  promptTokens : Option ℕ
  outputTokens : Option ℕ
deriving DecidableEq, Repr

/-- `ReleaseReport`. -/
structure ReleaseReport where
  outcome : Option String
  usage : Option Usage
  latencyMs : Option ℚ
deriving DecidableEq, Repr

/-- `AcquireDecision`: tagged sum over granted and denied (the `recommendation`
string and `limitsHint` are presentation-only and omitted). -/
inductive AcquireDecision
  | granted (leaseId : String) (expiresAt : ℤ)
  | denied (reason : String) (retryAfterMs : ℤ)
deriving DecidableEq, Repr

/-- The two strict-mode lifecycle errors thrown by `release`. -/
inductive GovError
  | doubleRelease
  | unknownLease
deriving DecidableEq, Repr

/-- Governor state (`src/governor.ts`). `lastDeny` and events carry no decision
relevance and are omitted. -/
structure Governor where
  store : LeaseStore
  concurrency : Option ConcurrencyPool
  rate : Option RatePool
  tokenRate : Option TokenRatePool
  fairness : Option FairnessTracker
  adaptive : Option AdaptiveController
  ttlMs : ℤ
  strict : Bool
  releasedIds : List String
deriving DecidableEq, Repr

namespace Governor

/-- `_RELEASED_CACHE_SIZE`. -/
def RELEASED_CACHE_SIZE : ℕ := 10000

/-- The governor constructor. Returns `none` when the concurrency pool constructor
throws (`interactiveReserve ≥ maxInFlight`). Truthiness guards of the source:
`config.rate?.requestsPerMinute` and `config.rate?.tokensPerMinute` must be nonzero,
fairness and adaptive are only created together with a concurrency pool. -/
def mk? (cfg : GovernorConfig) : Option Governor :=
  let concurrency? : Option (Option ConcurrencyPool) :=
    match cfg.concurrency with
    | none => some none
    | some cc =>
        match ConcurrencyPool.mk? cc.maxInFlight cc.interactiveReserve with
        | none => none
        | some p => some (some p)
  match concurrency? with
  | none => none
  | some concurrency =>
    let rate : Option RatePool :=
      match cfg.rate with
      | some rc =>
          match rc.requestsPerMinute with
          | some n => if n = 0 then none else
              some { limit := n, windowMs := rc.windowMs.getD 60000, timestamps := [], head := 0 }
          | none => none
      | none => none
    let tokenRate : Option TokenRatePool :=
      match cfg.rate with
      | some rc =>
          match rc.tokensPerMinute with
          | some n => if n = 0 then none else
              some { limit := n, windowMs := rc.windowMs.getD 60000, entries := [], head := 0 }
          | none => none
      | none => none
    let fairness : Option FairnessTracker :=
      match cfg.fairness, concurrency with
      | some fc, some _ =>
          some { softCapRatio := fc.softCapRatio.getD (3 / 5),
                 starvationWindowMs := fc.starvationWindowMs.getD 5000,
                 actorWeight := [], deniedAt := [] }
      | _, _ => none
    let adaptive : Option AdaptiveController :=
      match cfg.adaptive, cfg.concurrency, concurrency with
      | some ac, some cc, some _ =>
          some { alpha := ac.alpha.getD (1 / 5),
                 targetDenyRate := ac.targetDenyRate.getD (1 / 20),
                 latencyThreshold := ac.latencyThreshold.getD (3 / 2),
                 adjustIntervalMs := ac.adjustIntervalMs.getD 5000,
                 minConcurrency := ac.minConcurrency.getD 1,
                 maxConcurrency := cc.maxInFlight,
                 effectiveConcurrency := cc.maxInFlight,
                 emaLatency := 0, baselineLatency := 0, emaDenyRate := 0,
                 intervalAcquires := 0, intervalDenials := 0, latencySamples := [],
                 lastAdjust := 0, hasBaseline := false }
      | _, _, _ => none
    some { store := LeaseStore.empty, concurrency, rate, tokenRate, fairness, adaptive,
           ttlMs := cfg.leaseTtlMs.getD 60000, strict := cfg.strict.getD false,
           releasedIds := [] }

/-- The adaptive tick at the top of `acquire`:
`pool.effectiveMax := adaptive.maybeAdjust(now)`. -/
def applyTick (g : Governor) (now : ℤ) : Governor :=
  match g.adaptive, g.concurrency with
  | some a, some c =>
      let r := a.maybeAdjust now
      { g with adaptive := some r.1, concurrency := some (c.setEffectiveMax r.2) }
  | _, _ => g

/-- The idempotency check of `acquire` (guarded by key truthiness). -/
def idemLookup (g : Governor) (key : Option String) : Option Lease × Governor :=
  match truthyKey key with
  | some k =>
      let r := g.store.getByIdempotencyKey k
      (r.1, { g with store := r.2 })
  | none => (none, g)

/-- `_estimateTokens(request)`. -/
def estimateTokens (req : AcquireRequest) : ℕ :=
  match req.estimate with
  | none => 0
  | some est => est.promptTokens.getD 0 + est.maxOutputTokens.getD 0

/-- `_rollbackConcurrency(weight)`. -/
def rollbackConcurrency (g : Governor) (weight : ℕ) : Governor :=
  match g.concurrency with
  | some c => { g with concurrency := some (c.release weight) }
  | none => g

/-- The commit block at the end of `acquire`: record request-rate, record the
token-rate charge tagged with the new lease id, create and store the lease, record
fairness and adaptive acquires. -/
def commitStage (g : Governor) (now : ℤ) (freshId : String) (req : AcquireRequest)
    (priority : Priority) (weight : ℕ) : AcquireDecision × Governor :=
  let g :=
    match g.rate with
    | some rp => { g with rate := some (rp.record now) }
    | none => g
  let estimatedTokens := estimateTokens req
  let g :=
    match g.tokenRate with
    | some tp => { g with tokenRate := some (tp.record now estimatedTokens (some freshId)) }
    | none => g
  let lease : Lease :=
    { leaseId := freshId, actorId := req.actorId, action := req.action, priority,
      expiresAt := now + g.ttlMs, estimate := req.estimate,
      idempotencyKey := req.idempotencyKey, createdAt := now, weight }
  let g := { g with store := g.store.add lease }
  let g :=
    match g.fairness with
    | some f => { g with fairness := some (f.recordAcquire req.actorId weight) }
    | none => g
  let g :=
    match g.adaptive with
    | some a => { g with adaptive := some a.recordAcquire }
    | none => g
  (AcquireDecision.granted lease.leaseId lease.expiresAt, g)

/-- The token-rate check of `acquire` (with rollback on denial), then commit. -/
def tokenStage (g : Governor) (now : ℤ) (freshId : String) (req : AcquireRequest)
    (priority : Priority) (weight : ℕ) : AcquireDecision × Governor :=
  match g.tokenRate with
  | some tp =>
      let tr := tp.tryAcquire now (estimateTokens req)
      if tr.1.ok then
        commitStage { g with tokenRate := some tr.2 } now freshId req priority weight
      else
        (AcquireDecision.denied "rate" (tr.1.retryAfterMs.getD 1000),
         rollbackConcurrency { g with tokenRate := some tr.2 } weight)
  | none => commitStage g now freshId req priority weight

/-- The request-rate check of `acquire` (two-phase: probe only, record at commit),
then the token stage. -/
def rateStage (g : Governor) (now : ℤ) (freshId : String) (req : AcquireRequest)
    (priority : Priority) (weight : ℕ) : AcquireDecision × Governor :=
  match g.rate with
  | some rp =>
      let rr := rp.tryAcquire now
      if rr.1.ok then
        tokenStage { g with rate := some rr.2 } now freshId req priority weight
      else
        (AcquireDecision.denied "rate" (rr.1.retryAfterMs.getD 1000),
         rollbackConcurrency { g with rate := some rr.2 } weight)
  | none => tokenStage g now freshId req priority weight

/-- `acquire(request)`. The fresh lease id produced by `newLeaseId()` is supplied
as the `freshId` argument. -/
def acquire (g0 : Governor) (now : ℤ) (freshId : String) (req : AcquireRequest) :
    AcquireDecision × Governor :=
  let priority := req.priority.getD Priority.interactive
  let weight := (req.estimate.bind Estimate.weight).getD 1
  let g1 := g0.applyTick now
  match g1.idemLookup req.idempotencyKey with
  | (some existing, g2) => (AcquireDecision.granted existing.leaseId existing.expiresAt, g2)
  | (none, g2) =>
    match g2.concurrency with
    | some c =>
        let earliestExpiryMs := (g2.store.earliestExpiry).map (fun e => e - now)
        let res := c.tryAcquire priority earliestExpiryMs weight
        if res.1.ok then
          match g2.fairness with
          | some f =>
              let chk := f.check req.actorId weight c.maxWeight res.2.inFlightWeight now
              if chk.1 then
                rateStage { g2 with concurrency := some res.2, fairness := some chk.2 }
                  now freshId req priority weight
              else
                (AcquireDecision.denied "policy" (clampRetry ((earliestExpiryMs.getD 500 : ℤ) : ℚ)),
                 { g2 with concurrency := some (res.2.release weight),
                           fairness := some (chk.2.recordDenial req.actorId now),
                           adaptive := g2.adaptive.map AdaptiveController.recordDenial })
          | none =>
              rateStage { g2 with concurrency := some res.2 } now freshId req priority weight
        else
          (AcquireDecision.denied "concurrency" (res.1.retryAfterMs.getD 500),
           { g2 with concurrency := some res.2,
                     fairness := g2.fairness.map (fun f => f.recordDenial req.actorId now),
                     adaptive := g2.adaptive.map AdaptiveController.recordDenial })
    | none => rateStage g2 now freshId req priority weight

/-- Strict-mode bounded released-ids bookkeeping: `Set.add` followed by FIFO
eviction when the size exceeds `_RELEASED_CACHE_SIZE`. -/
def addReleased (l : List String) (id : String) : List String :=
  let l' := if id ∈ l then l else l ++ [id]
  if RELEASED_CACHE_SIZE < l'.length then l'.drop 1 else l'

/-- The bookkeeping block of `release` after the lease has been removed from the
store: strict released-ids tracking, concurrency and fairness release, token-rate
reconciliation, adaptive latency feed. -/
def releaseBook (g : Governor) (lease : Lease) (leaseId : String)
    (report : Option ReleaseReport) : Governor :=
  let g := if g.strict then { g with releasedIds := addReleased g.releasedIds leaseId }
           else g
  let g :=
    match g.concurrency with
    | some c => { g with concurrency := some (c.release lease.weight) }
    | none => g
  let g :=
    match g.fairness with
    | some f => { g with fairness := some (f.recordRelease lease.actorId lease.weight) }
    | none => g
  let g :=
    match g.tokenRate, report.bind ReleaseReport.usage with
    | some tp, some u =>
        let actualTokens := u.promptTokens.getD 0 + u.outputTokens.getD 0
        if 0 < actualTokens then
          { g with tokenRate := some (tp.updateActual leaseId actualTokens) }
        else g
    | _, _ => g
  match g.adaptive, report.bind ReleaseReport.latencyMs with
  | some a, some lat => { g with adaptive := some (a.recordLatency lat) }
  | _, _ => g

/-- `release(leaseId, report?)`. Strict-mode misuse becomes `Except.error`; the
strict `warn` event changes no state and is omitted. -/
def release (g : Governor) (_now : ℤ) (leaseId : String) (report : Option ReleaseReport) :
    Except GovError Governor :=
  if g.strict = true ∧ leaseId ∈ g.releasedIds then Except.error GovError.doubleRelease
  else
    match g.store.remove leaseId with
    | (none, s') =>
        if g.strict then Except.error GovError.unknownLease
        else Except.ok { g with store := s' }
    | (some lease, s') =>
        Except.ok (releaseBook { g with store := s' } lease leaseId report)

/-- `_onExpired` applied to one expired lease: release concurrency and fairness. -/
def expireOne (g : Governor) (l : Lease) : Governor :=
  let g :=
    match g.concurrency with
    | some c => { g with concurrency := some (c.release l.weight) }
    | none => g
  match g.fairness with
  | some f => { g with fairness := some (f.recordRelease l.actorId l.weight) }
  | none => g

/-- One reaper sweep: `store.sweep(now)` followed by `_onExpired` on the expired
leases. -/
def sweepOp (g : Governor) (now : ℤ) : Governor :=
  let r := g.store.sweep now
  r.1.foldl expireOne { g with store := r.2 }

end Governor

/-- One externally observable governor operation, for stating invariants over
arbitrary operation sequences. -/
inductive GOp
  | acquire (now : ℤ) (freshId : String) (req : AcquireRequest)
  | release (now : ℤ) (leaseId : String) (report : Option ReleaseReport)
  | sweep (now : ℤ)

namespace Governor

/-- Apply one operation. A strict-mode `release` that throws leaves the state
unchanged (both strict throws happen before any mutation). -/
def applyOp (g : Governor) : GOp → Governor
  | GOp.acquire now freshId req => (g.acquire now freshId req).2
  | GOp.release now leaseId report =>
      match g.release now leaseId report with
      | Except.ok g' => g'
      | Except.error _ => g
  | GOp.sweep now => g.sweepOp now

/-- Apply a sequence of operations. -/
def runOps (g : Governor) (ops : List GOp) : Governor :=
  ops.foldl applyOp g

end Governor

/-- The request-rate timestamps that are inside the window at time `now` — the
observable content of the pool (pruning dead entries does not change it). -/
def RatePool.liveWindow (p : RatePool) (now : ℤ) : List ℤ :=
  p.live.filter (fun t => decide (now - p.windowMs < t))

/-- The token-rate entries that are inside the window at time `now`. -/
def TokenRatePool.liveWindow (p : TokenRatePool) (now : ℤ) : List TokenEntry :=
  p.live.filter (fun e => decide (now - p.windowMs < e.timestamp))

namespace Governor

/-- Observable concurrency state: the in-flight weight. -/
def obsInFlight (g : Governor) : Option ℕ :=
  g.concurrency.map ConcurrencyPool.inFlightWeight

/-- Observable request-rate state at time `now`: the in-window timestamps. -/
def obsRate (g : Governor) (now : ℤ) : Option (List ℤ) :=
  g.rate.map (fun p => p.liveWindow now)

/-- Observable token-rate state at time `now`: the in-window entries. -/
def obsTokens (g : Governor) (now : ℤ) : Option (List TokenEntry) :=
  g.tokenRate.map (fun p => p.liveWindow now)

/-- Observable fairness state: the per-actor in-flight weights. -/
def obsFairness (g : Governor) : Option (List (String × ℕ)) :=
  g.fairness.map FairnessTracker.actorWeight

end Governor

/-- Well-formedness of a lease store: primary keys are distinct and each lease
record carries the key it is stored under. Every store reachable from
`LeaseStore.empty` satisfies this. -/
def LeaseStore.WF (s : LeaseStore) : Prop :=
  (s.leases.map Prod.fst).Nodup ∧ ∀ kv ∈ s.leases, kv.2.leaseId = kv.1

/-- One operation of the `TokenRatePool` interface, for comparing the two
implementations over arbitrary call sequences under arbitrary clock behaviour
(the `now` argument of each call is the clock value it observes). -/
inductive TOp
  | tryAcq (now : ℤ) (est : ℕ)
  | push (now : ℤ) (est : ℕ) (leaseId : Option String)
  | update (leaseId : String) (actual : ℕ)
  | current (now : ℤ)
  | readLimit
deriving DecidableEq, Repr

/-- Observable output of one `TokenRatePool` operation. -/
inductive TOut
  | acq (r : PoolResult)
  | unitOut
  | natOut (n : ℕ)
deriving DecidableEq, Repr

/-- Step the head-pointer implementation by one operation. -/
def TokenRatePool.step (p : TokenRatePool) : TOp → TokenRatePool × TOut
  | TOp.tryAcq now est => let r := p.tryAcquire now est; (r.2, TOut.acq r.1)
  | TOp.push now est lid => (p.record now est lid, TOut.unitOut)
  | TOp.update lid act => (p.updateActual lid act, TOut.unitOut)
  | TOp.current now => let r := p.currentTokens now; (r.2, TOut.natOut r.1)
  | TOp.readLimit => (p, TOut.natOut p.limit)

/-- Outputs of the head-pointer implementation over a call sequence. -/
def TokenRatePool.runOut (p : TokenRatePool) : List TOp → List TOut
  | [] => []
  | op :: ops =>
      let r := p.step op
      r.2 :: r.1.runOut ops

/-- Step the shift implementation by one operation. -/
def TokenRatePoolShift.step (p : TokenRatePoolShift) : TOp → TokenRatePoolShift × TOut
  | TOp.tryAcq now est => let r := p.tryAcquire now est; (r.2, TOut.acq r.1)
  | TOp.push now est lid => (p.record now est lid, TOut.unitOut)
  | TOp.update lid act => (p.updateActual lid act, TOut.unitOut)
  | TOp.current now => let r := p.currentTokens now; (r.2, TOut.natOut r.1)
  | TOp.readLimit => (p, TOut.natOut p.limit)

/-- Outputs of the shift implementation over a call sequence. -/
def TokenRatePoolShift.runOut (p : TokenRatePoolShift) : List TOp → List TOut
  | [] => []
  | op :: ops =>
      let r := p.step op
      r.2 :: r.1.runOut ops

/-! ### Concrete inputs used by witnesses and counterexamples -/

/-- A minimal acquire request. -/
def reqSimple : AcquireRequest :=
  { actorId := "a", action := "x", priority := none, estimate := none, idempotencyKey := none }

/-- A governor whose single-slot concurrency pool is full (weight 1 in flight). -/
def fullPool1 : Governor :=
  { store := LeaseStore.empty,
    concurrency := some { maxWeight := 1, reserveWeight := 0, effectiveMax := 1, inFlightWeight := 1 },
    rate := none, tokenRate := none, fairness := none, adaptive := none,
    ttlMs := 1000, strict := false, releasedIds := [] }

/-- A strict-mode governor that has already released lease id `"L0"`. -/
def strictGov : Governor :=
  { store := LeaseStore.empty, concurrency := none, rate := none, tokenRate := none,
    fairness := none, adaptive := none, ttlMs := 1000, strict := true, releasedIds := ["L0"] }

/-- A governor with fairness (soft-cap ratio 1/2) under pressure: capacity 10,
5 units in flight, all held by actor `"a"`. -/
def fairGov : Governor :=
  { store := LeaseStore.empty,
    concurrency := some { maxWeight := 10, reserveWeight := 0, effectiveMax := 10, inFlightWeight := 5 },
    rate := none, tokenRate := none,
    fairness := some { softCapRatio := 1 / 2, starvationWindowMs := 5000,
                       actorWeight := [("a", 5)], deniedAt := [] },
    adaptive := none, ttlMs := 1000, strict := false, releasedIds := [] }

/-- The concurrency-pool invariant carried through every operation sequence.
`anone` is instantiated with "the configuration has no adaptive controller". -/
def GovInv (anone : Prop) (g : Governor) : Prop :=
  (anone → g.adaptive = none) ∧
  ∀ c, g.concurrency = some c →
    1 ≤ c.maxWeight ∧ 1 ≤ c.effectiveMax ∧ c.effectiveMax ≤ c.maxWeight ∧
      (anone → c.inFlightWeight ≤ c.effectiveMax)

/-- Configuration of the C2 counterexample: capacity 2, adaptive with
`alpha = 1`, `target_deny_rate = 1/20`, `adjust_interval_ms = 100`. -/
def adaptiveCfg : GovernorConfig :=
  { concurrency := some { maxInFlight := 2, interactiveReserve := none },
    rate := none, fairness := none,
    adaptive := some { alpha := some 1, targetDenyRate := some (1 / 20),
                       latencyThreshold := none, adjustIntervalMs := some 100,
                       minConcurrency := some 1 },
    leaseTtlMs := none, strict := none }

/-- Operation sequence of the C2 counterexample: fill both slots, provoke one
denial, then trigger the adaptive tick past the interval. -/
def adaptiveOps : List GOp :=
  [GOp.acquire 1 "A" reqSimple, GOp.acquire 2 "B" reqSimple,
   GOp.acquire 3 "C" reqSimple, GOp.acquire 200 "D" reqSimple]

/-- The counterexample's configuration stripped of its adaptive controller. -/
def plainCfg : GovernorConfig :=
  { concurrency := some { maxInFlight := 2, interactiveReserve := none },
    rate := none, fairness := none, adaptive := none, leaseTtlMs := none, strict := none }

/-- The governor produced by `Governor.mk? plainCfg`. -/
def plainGov : Governor :=
  { store := LeaseStore.empty,
    concurrency := some { maxWeight := 2, reserveWeight := 0, effectiveMax := 2,
                          inFlightWeight := 0 },
    rate := none, tokenRate := none, fairness := none, adaptive := none,
    ttlMs := 60000, strict := false, releasedIds := [] }

/-- The concurrency pool reached from `plainGov` after `adaptiveOps` (both slots
taken, the two further acquires denied). -/
def plainPoolAfter : ConcurrencyPool :=
  { maxWeight := 2, reserveWeight := 0, effectiveMax := 2, inFlightWeight := 2 }

/-- Token-rate-only governor configuration (limit 1000 tokens/minute). -/
def tokenCfg : GovernorConfig :=
  { concurrency := none,
    rate := some { requestsPerMinute := none, tokensPerMinute := some 1000, windowMs := none },
    fairness := none, adaptive := none, leaseTtlMs := none, strict := none }

/-- A request with a token estimate of 500 prompt + 300 max-output tokens. -/
def tokenReq : AcquireRequest :=
  { actorId := "a", action := "call", priority := none,
    estimate := some { weight := none, promptTokens := some 500, maxOutputTokens := some 300 },
    idempotencyKey := none }

/-- A release report whose usage is zero prompt and zero output tokens. -/
def zeroUsageRpt : ReleaseReport :=
  { outcome := none,
    usage := some { promptTokens := some 0, outputTokens := some 0 }, latencyMs := none }

/-- A release report with 500 prompt + 100 output tokens of actual usage. -/
def posUsageRpt : ReleaseReport :=
  { outcome := none,
    usage := some { promptTokens := some 500, outputTokens := some 100 }, latencyMs := none }

/-- A token-rate pool holding one live entry of 800 estimated tokens for lease
`"L1"`. -/
def tokPool : TokenRatePool :=
  { limit := 1000, windowMs := 60000,
    entries := [{ timestamp := 0, tokens := 800, leaseId := some "L1" }], head := 0 }

/-- The lease `"L1"` backing the entry of `tokPool`. -/
def tokLease : Lease :=
  { leaseId := "L1", actorId := "a", action := "call", priority := Priority.interactive,
    expiresAt := 60000, estimate := none, idempotencyKey := none, createdAt := 0, weight := 1 }

/-- A governor holding `tokPool` and the lease `"L1"` in its store. -/
def tokGov : Governor :=
  { store := { leases := [("L1", tokLease)], byIdempotency := [] },
    concurrency := none, rate := none, tokenRate := some tokPool,
    fairness := none, adaptive := none, ttlMs := 60000, strict := false, releasedIds := [] }

/-- A lease stored under idempotency key `"K"`. -/
def idemLease : Lease :=
  { leaseId := "L1", actorId := "a", action := "call", priority := Priority.interactive,
    expiresAt := 60000, estimate := none, idempotencyKey := some "K", createdAt := 0,
    weight := 1 }

/-- A governor holding `idemLease` (indexed under `"K"`), with one of two
concurrency slots in flight and one request-rate timestamp recorded. -/
def idemGov : Governor :=
  { store := { leases := [("L1", idemLease)], byIdempotency := [("K", "L1")] },
    concurrency := some { maxWeight := 2, reserveWeight := 0, effectiveMax := 2,
                          inFlightWeight := 1 },
    rate := some { limit := 10, windowMs := 60000, timestamps := [0], head := 0 },
    tokenRate := none, fairness := none, adaptive := none,
    ttlMs := 60000, strict := false, releasedIds := [] }

/-- A request carrying the idempotency key `"K"`. -/
def idemReq : AcquireRequest :=
  { actorId := "a", action := "call", priority := none, estimate := none,
    idempotencyKey := some "K" }

/-! ### Association-list map lemmas -/

theorem mapGet_mapSet_self {α : Type} (m : List (String × α)) (k : String) (v : α) :
    mapGet (mapSet m k v) k = some v := by
  induction m with
  | nil => simp [mapGet, mapSet]
  | cons kv rest ih =>
      by_cases h : kv.1 = k
      · simp [mapSet, h, mapGet]
      · simp [mapSet, h, mapGet, ih]

theorem mapGet_eq_none_of_not_mem_keys {α : Type} (m : List (String × α)) (k : String)
    (h : k ∉ m.map Prod.fst) : mapGet m k = none := by
  induction m with
  | nil => simp [mapGet]
  | cons kv rest ih =>
      simp only [List.map_cons, List.mem_cons, not_or] at h
      have h1 : kv.1 ≠ k := fun he => h.1 he.symm
      simp only [mapGet, if_neg h1]
      exact ih h.2

theorem mapGet_mapDelete_self {α : Type} (m : List (String × α)) (k : String)
    (hnd : (m.map Prod.fst).Nodup) : mapGet (mapDelete m k) k = none := by
  induction m with
  | nil => simp [mapGet, mapDelete]
  | cons kv rest ih =>
      simp only [List.map_cons, List.nodup_cons] at hnd
      by_cases h : kv.1 = k
      · simp only [mapDelete, if_pos h]
        exact mapGet_eq_none_of_not_mem_keys rest k (h ▸ hnd.1)
      · simp only [mapDelete, if_neg h, mapGet, if_neg h]
        exact ih hnd.2

theorem mapGet_mapDelete_ne {α : Type} (m : List (String × α)) (k k' : String)
    (h : k' ≠ k) : mapGet (mapDelete m k) k' = mapGet m k' := by
  induction m with
  | nil => simp [mapGet, mapDelete]
  | cons kv rest ih =>
      by_cases hk : kv.1 = k
      · have h1 : kv.1 ≠ k' := fun he => h (he ▸ hk ▸ rfl)
        simp only [mapDelete, if_pos hk, mapGet, if_neg h1]
      · simp only [mapDelete, if_neg hk, mapGet]
        by_cases hk' : kv.1 = k'
        · simp [hk']
        · simp [hk', ih]

theorem keys_mapSet {α : Type} (m : List (String × α)) (k : String) (v : α)
    (hmem : mapGet m k = none) :
    (mapSet m k v).map Prod.fst = m.map Prod.fst ++ [k] := by
  induction m with
  | nil => simp [mapSet]
  | cons kv rest ih =>
      simp only [mapGet] at hmem
      by_cases h : kv.1 = k
      · simp [h] at hmem
      · simp only [mapSet, if_neg h, List.map_cons, List.cons_append, List.cons.injEq, true_and]
        exact ih (by simpa [h] using hmem)

/-! ### Rolling-window prune lemmas -/

theorem drop_pruneCount (c : ℤ) (l : List ℤ) :
    l.drop (pruneCount c l) = l.dropWhile (fun t => decide (t ≤ c)) := by
  induction l with
  | nil => simp [pruneCount]
  | cons t rest ih =>
      by_cases h : t ≤ c
      · simp [pruneCount, h, List.dropWhile_cons, ih]
      · simp [pruneCount, h, List.dropWhile_cons]

theorem filter_gt_dropWhile_le (c : ℤ) (l : List ℤ) :
    (l.dropWhile (fun t => decide (t ≤ c))).filter (fun t => decide (c < t)) =
      l.filter (fun t => decide (c < t)) := by
  induction l with
  | nil => simp
  | cons t rest ih =>
      by_cases h : t ≤ c
      · have h2 : ¬ c < t := not_lt.mpr h
        simp [List.dropWhile_cons, List.filter_cons, h, h2, ih]
      · simp [List.dropWhile_cons, h]

namespace RatePool

theorem prune_live (p : RatePool) (now : ℤ) :
    (p.prune now).live =
      p.live.dropWhile (fun t => decide (t ≤ now - p.windowMs)) := by
  have hdrop : p.timestamps.drop (p.head + pruneCount (now - p.windowMs) (p.timestamps.drop p.head)) =
      (p.timestamps.drop p.head).dropWhile (fun t => decide (t ≤ now - p.windowMs)) := by
    rw [← List.drop_drop]
    exact drop_pruneCount _ _
  unfold prune live
  dsimp only
  split
  · simpa using hdrop
  · simpa using hdrop

@[simp]
theorem prune_limit (p : RatePool) (now : ℤ) : (p.prune now).limit = p.limit := by
  unfold prune
  dsimp only
  split <;> rfl

@[simp]
theorem prune_windowMs (p : RatePool) (now : ℤ) : (p.prune now).windowMs = p.windowMs := by
  unfold prune
  dsimp only
  split <;> rfl

theorem liveWindow_prune (p : RatePool) (now : ℤ) :
    (p.prune now).liveWindow now = p.liveWindow now := by
  unfold liveWindow
  rw [prune_live, prune_windowMs]
  exact filter_gt_dropWhile_le _ _

theorem tryAcquire_snd_live (p : RatePool) (now : ℤ) :
    ((p.tryAcquire now).2).liveWindow now = p.liveWindow now := by
  unfold tryAcquire
  dsimp only
  split
  · exact liveWindow_prune p now
  · exact liveWindow_prune p now

end RatePool

theorem drop_tokenPruneCount (c : ℤ) (l : List TokenEntry) :
    l.drop (tokenPruneCount c l) = l.dropWhile (fun e => decide (e.timestamp ≤ c)) := by
  induction l with
  | nil => simp [tokenPruneCount]
  | cons e rest ih =>
      by_cases h : e.timestamp ≤ c
      · simp [tokenPruneCount, h, List.dropWhile_cons, ih]
      · simp [tokenPruneCount, h, List.dropWhile_cons]

theorem tokenFilter_gt_dropWhile_le (c : ℤ) (l : List TokenEntry) :
    (l.dropWhile (fun e => decide (e.timestamp ≤ c))).filter (fun e => decide (c < e.timestamp)) =
      l.filter (fun e => decide (c < e.timestamp)) := by
  induction l with
  | nil => simp
  | cons e rest ih =>
      by_cases h : e.timestamp ≤ c
      · have h2 : ¬ c < e.timestamp := not_lt.mpr h
        simp [List.dropWhile_cons, List.filter_cons, h, h2, ih]
      · simp [List.dropWhile_cons, h]

namespace TokenRatePool

theorem prune_live_token (p : TokenRatePool) (now : ℤ) :
    (p.prune now).live =
      p.live.dropWhile (fun e => decide (e.timestamp ≤ now - p.windowMs)) := by
  have hdrop : p.entries.drop (p.head + tokenPruneCount (now - p.windowMs) (p.entries.drop p.head)) =
      (p.entries.drop p.head).dropWhile (fun e => decide (e.timestamp ≤ now - p.windowMs)) := by
    rw [← List.drop_drop]
    exact drop_tokenPruneCount _ _
  unfold prune live
  dsimp only
  split
  · simpa using hdrop
  · simpa using hdrop

@[simp]
theorem prune_limit_token (p : TokenRatePool) (now : ℤ) : (p.prune now).limit = p.limit := by
  unfold prune
  dsimp only
  split <;> rfl

@[simp]
theorem prune_windowMs_token (p : TokenRatePool) (now : ℤ) : (p.prune now).windowMs = p.windowMs := by
  unfold prune
  dsimp only
  split <;> rfl

theorem liveWindow_prune_token (p : TokenRatePool) (now : ℤ) :
    (p.prune now).liveWindow now = p.liveWindow now := by
  unfold liveWindow
  rw [prune_live_token, prune_windowMs_token]
  exact tokenFilter_gt_dropWhile_le _ _

theorem tryAcquire_snd_live_token (p : TokenRatePool) (now : ℤ) (est : ℕ) :
    ((p.tryAcquire now est).2).liveWindow now = p.liveWindow now := by
  unfold tryAcquire
  dsimp only
  split
  · exact liveWindow_prune_token p now
  · exact liveWindow_prune_token p now

end TokenRatePool

/-! ### Concurrency pool lemmas -/

namespace ConcurrencyPool

theorem tryAcquire_ok_iff (p : ConcurrencyPool) (pr : Priority) (e? : Option ℤ) (w : ℕ) :
    (p.tryAcquire pr e? w).1.ok = true ↔
      ((w : ℤ) ≤ (p.effectiveMax : ℤ) - (p.inFlightWeight : ℤ) ∧
        (pr = Priority.background →
          (p.reserveWeight : ℤ) ≤ (p.effectiveMax : ℤ) - (p.inFlightWeight : ℤ) - (w : ℤ))) := by
  unfold tryAcquire
  dsimp only
  split
  · rename_i h
    simp only [Bool.false_eq_true, false_iff, not_and]
    intro h1
    omega
  · split
    · rename_i h h2
      simp only [Bool.false_eq_true, false_iff, not_and]
      intro h1 h3
      have := h3 h2.1
      omega
    · rename_i h h2
      simp only [true_iff]
      rw [not_and_or] at h2
      refine ⟨by omega, fun hbg => ?_⟩
      rcases h2 with h2 | h2
      · exact absurd hbg h2
      · omega

theorem tryAcquire_snd_of_ok (p : ConcurrencyPool) (pr : Priority) (e? : Option ℤ) (w : ℕ)
    (h : (p.tryAcquire pr e? w).1.ok = true) :
    (p.tryAcquire pr e? w).2 = { p with inFlightWeight := p.inFlightWeight + w } := by
  unfold tryAcquire at h ⊢
  dsimp only at h ⊢
  split at h
  · cases h
  · split at h
    · cases h
    · rename_i h1 h2
      rw [if_neg h1, if_neg h2]

theorem tryAcquire_snd_of_deny (p : ConcurrencyPool) (pr : Priority) (e? : Option ℤ) (w : ℕ)
    (h : (p.tryAcquire pr e? w).1.ok = false) :
    (p.tryAcquire pr e? w).2 = p := by
  unfold tryAcquire at h ⊢
  dsimp only at h ⊢
  split at h
  · rename_i h1
    rw [if_pos h1]
  · split at h
    · rename_i h1 h2
      rw [if_neg h1, if_pos h2]
    · cases h

theorem tryAcquire_deny_retry (p : ConcurrencyPool) (pr : Priority) (e? : Option ℤ) (w : ℕ)
    (h : (p.tryAcquire pr e? w).1.ok = false) :
    (p.tryAcquire pr e? w).1.retryAfterMs = some (p.computeRetry e?) := by
  unfold tryAcquire at h ⊢
  dsimp only at h ⊢
  split at h
  · rename_i h1
    rw [if_pos h1]
  · split at h
    · rename_i h1 h2
      rw [if_neg h1, if_pos h2]
    · cases h

@[simp]
theorem release_inFlight (p : ConcurrencyPool) (w : ℕ) :
    (p.release w).inFlightWeight = p.inFlightWeight - w := rfl

@[simp]
theorem setEffectiveMax_inFlight (p : ConcurrencyPool) (v : ℕ) :
    (p.setEffectiveMax v).inFlightWeight = p.inFlightWeight := rfl

@[simp]
theorem setEffectiveMax_maxWeight (p : ConcurrencyPool) (v : ℕ) :
    (p.setEffectiveMax v).maxWeight = p.maxWeight := rfl

theorem release_add_cancel (p : ConcurrencyPool) (w : ℕ) :
    (({ p with inFlightWeight := p.inFlightWeight + w } : ConcurrencyPool).release w).inFlightWeight
      = p.inFlightWeight := by
  simp

end ConcurrencyPool

/-! ### Fairness tracker lemmas -/

namespace FairnessTracker

@[simp]
theorem check_snd_actorWeight (t : FairnessTracker) (a : String) (w maxW cur : ℕ) (now : ℤ) :
    ((t.check a w maxW cur now).2).actorWeight = t.actorWeight := by
  unfold check
  dsimp only
  split
  · rfl
  · split
    · split
      · split
        · rfl
        · rfl
      · rfl
    · rfl

@[simp]
theorem recordDenial_actorWeight (t : FairnessTracker) (a : String) (now : ℤ) :
    (t.recordDenial a now).actorWeight = t.actorWeight := rfl

theorem check_fst_false_iff (t : FairnessTracker) (a : String) (w maxW cur : ℕ) (now : ℤ) :
    (t.check a w maxW cur now).1 = false ↔
      ((maxW : ℚ) * (1 / 2) ≤ (cur : ℚ) ∧
        (maxW : ℚ) * t.softCapRatio < ((mapGet t.actorWeight a).getD 0 : ℚ) + (w : ℚ) ∧
        ¬ ∃ last, mapGet t.deniedAt a = some last ∧ now - last < t.starvationWindowMs) := by
  unfold check
  dsimp only
  split
  · rename_i h
    simp only [Bool.true_eq_false, false_iff, not_and]
    intro h1
    exact absurd h1 (by push_neg; exact h)
  · rename_i h
    rw [not_lt] at h
    split
    · rename_i hcap
      split
      · rename_i last hsome
        split
        · rename_i hrecent
          simp only [Bool.true_eq_false, false_iff, not_and]
          intro _ _ hno
          exact hno ⟨last, hsome, hrecent⟩
        · rename_i hold
          simp only [true_iff]
          refine ⟨h, hcap, ?_⟩
          rintro ⟨l, hl, hrec⟩
          rw [hsome] at hl
          cases hl
          exact hold hrec
      · rename_i hnone
        simp only [true_iff]
        refine ⟨h, hcap, ?_⟩
        rintro ⟨l, hl, _⟩
        rw [hnone] at hl
        cases hl
    · rename_i hcap
      simp only [Bool.true_eq_false, false_iff, not_and]
      intro _ h2
      exact absurd h2 hcap

theorem check_pass_consumes (t : FairnessTracker) (a : String) (w maxW cur : ℕ)
    (now : ℤ) (last : ℤ)
    (h1 : (maxW : ℚ) * (1 / 2) ≤ (cur : ℚ))
    (h2 : (maxW : ℚ) * t.softCapRatio < ((mapGet t.actorWeight a).getD 0 : ℚ) + (w : ℚ))
    (h3 : mapGet t.deniedAt a = some last)
    (h4 : now - last < t.starvationWindowMs) :
    t.check a w maxW cur now = (true, { t with deniedAt := mapDelete t.deniedAt a }) := by
  unfold check
  dsimp only
  rw [if_neg (not_lt.mpr h1), if_pos h2, h3]
  dsimp only
  rw [if_pos h4]

end FairnessTracker

/-! ### Governor structural lemmas -/

namespace Governor

@[simp]
theorem applyTick_store (g : Governor) (now : ℤ) : (g.applyTick now).store = g.store := by
  unfold applyTick
  split <;> rfl

@[simp]
theorem applyTick_rate (g : Governor) (now : ℤ) : (g.applyTick now).rate = g.rate := by
  unfold applyTick
  split <;> rfl

@[simp]
theorem applyTick_tokenRate (g : Governor) (now : ℤ) :
    (g.applyTick now).tokenRate = g.tokenRate := by
  unfold applyTick
  split <;> rfl

@[simp]
theorem applyTick_fairness (g : Governor) (now : ℤ) :
    (g.applyTick now).fairness = g.fairness := by
  unfold applyTick
  split <;> rfl

@[simp]
theorem applyTick_ttlMs (g : Governor) (now : ℤ) : (g.applyTick now).ttlMs = g.ttlMs := by
  unfold applyTick
  split <;> rfl

@[simp]
theorem applyTick_strict (g : Governor) (now : ℤ) : (g.applyTick now).strict = g.strict := by
  unfold applyTick
  split <;> rfl

theorem applyTick_obsInFlight (g : Governor) (now : ℤ) :
    (g.applyTick now).obsInFlight = g.obsInFlight := by
  unfold applyTick obsInFlight
  split
  · rename_i a c _ heqc
    rw [heqc]
    rfl
  · rfl

theorem applyTick_conc_inFlight (g : Governor) (now : ℤ) :
    ((g.applyTick now).concurrency).map ConcurrencyPool.inFlightWeight =
      (g.concurrency).map ConcurrencyPool.inFlightWeight := by
  have := applyTick_obsInFlight g now
  unfold obsInFlight at this
  exact this

theorem applyTick_conc_maxWeight (g : Governor) (now : ℤ) :
    ((g.applyTick now).concurrency).map ConcurrencyPool.maxWeight =
      (g.concurrency).map ConcurrencyPool.maxWeight := by
  unfold applyTick
  split
  · rename_i a c _ heqc
    rw [heqc]
    rfl
  · rfl

@[simp]
theorem idemLookup_concurrency (g : Governor) (k : Option String) :
    ((g.idemLookup k).2).concurrency = g.concurrency := by
  unfold idemLookup
  split <;> rfl

@[simp]
theorem idemLookup_rate (g : Governor) (k : Option String) :
    ((g.idemLookup k).2).rate = g.rate := by
  unfold idemLookup
  split <;> rfl

@[simp]
theorem idemLookup_tokenRate (g : Governor) (k : Option String) :
    ((g.idemLookup k).2).tokenRate = g.tokenRate := by
  unfold idemLookup
  split <;> rfl

@[simp]
theorem idemLookup_fairness (g : Governor) (k : Option String) :
    ((g.idemLookup k).2).fairness = g.fairness := by
  unfold idemLookup
  split <;> rfl

@[simp]
theorem idemLookup_adaptive (g : Governor) (k : Option String) :
    ((g.idemLookup k).2).adaptive = g.adaptive := by
  unfold idemLookup
  split <;> rfl

@[simp]
theorem idemLookup_ttlMs (g : Governor) (k : Option String) :
    ((g.idemLookup k).2).ttlMs = g.ttlMs := by
  unfold idemLookup
  split <;> rfl

@[simp]
theorem rollback_concurrency (g : Governor) (w : ℕ) :
    (g.rollbackConcurrency w).concurrency = g.concurrency.map (fun c => c.release w) := by
  unfold rollbackConcurrency
  cases hc : g.concurrency with
  | some c => rfl
  | none => simp [hc]

@[simp]
theorem rollback_rate (g : Governor) (w : ℕ) : (g.rollbackConcurrency w).rate = g.rate := by
  unfold rollbackConcurrency
  cases g.concurrency <;> rfl

@[simp]
theorem rollback_tokenRate (g : Governor) (w : ℕ) :
    (g.rollbackConcurrency w).tokenRate = g.tokenRate := by
  unfold rollbackConcurrency
  cases g.concurrency <;> rfl

@[simp]
theorem rollback_fairness (g : Governor) (w : ℕ) :
    (g.rollbackConcurrency w).fairness = g.fairness := by
  unfold rollbackConcurrency
  cases g.concurrency <;> rfl

@[simp]
theorem rollback_store (g : Governor) (w : ℕ) : (g.rollbackConcurrency w).store = g.store := by
  unfold rollbackConcurrency
  cases g.concurrency <;> rfl

@[simp]
theorem rollback_adaptive (g : Governor) (w : ℕ) :
    (g.rollbackConcurrency w).adaptive = g.adaptive := by
  unfold rollbackConcurrency
  cases g.concurrency <;> rfl

/-- A denial out of the request-rate / token-rate / commit pipeline: the
concurrency reservation is rolled back and no rate record, token entry or
fairness weight is committed. -/
theorem rateStage_denied (g : Governor) (now : ℤ) (fid : String) (req : AcquireRequest)
    (pr : Priority) (w : ℕ) (r : String) (retry : ℤ) (g' : Governor)
    (h : rateStage g now fid req pr w = (AcquireDecision.denied r retry, g')) :
    g'.concurrency = g.concurrency.map (fun c => c.release w) ∧
    g'.obsRate now = g.obsRate now ∧
    g'.obsTokens now = g.obsTokens now ∧
    g'.fairness = g.fairness := by
  unfold rateStage tokenStage commitStage at h
  dsimp only at h
  split at h
  · rename_i rp heqr
    split at h
    · -- request-rate passed
      split at h
      · rename_i tp heqt
        split at h
        · -- token-rate also passed: the commit returns granted, contradiction
          exact absurd (congrArg Prod.fst h) (fun hh => AcquireDecision.noConfusion hh)
        · -- token-rate denied
          obtain ⟨-, h2⟩ := Prod.mk.injEq .. |>.mp h
          rw [← h2]
          refine ⟨by simp, ?_, ?_, by simp⟩
          · unfold obsRate
            simp [heqr, RatePool.tryAcquire_snd_live]
          · unfold obsTokens
            simp [heqt, TokenRatePool.tryAcquire_snd_live_token]
      · -- no token pool: commit returns granted, contradiction
        exact absurd (congrArg Prod.fst h) (fun hh => AcquireDecision.noConfusion hh)
    · -- request-rate denied
      obtain ⟨-, h2⟩ := Prod.mk.injEq .. |>.mp h
      rw [← h2]
      refine ⟨by simp, ?_, by unfold obsTokens; simp, by simp⟩
      unfold obsRate
      simp [heqr, RatePool.tryAcquire_snd_live]
  · rename_i heqr
    split at h
    · rename_i tp heqt
      split at h
      · exact absurd (congrArg Prod.fst h) (fun hh => AcquireDecision.noConfusion hh)
      · obtain ⟨-, h2⟩ := Prod.mk.injEq .. |>.mp h
        rw [← h2]
        refine ⟨by simp, by unfold obsRate; simp, ?_, by simp⟩
        unfold obsTokens
        simp [heqt, TokenRatePool.tryAcquire_snd_live_token]
    · exact absurd (congrArg Prod.fst h) (fun hh => AcquireDecision.noConfusion hh)

end Governor

/-! ### Claim C1 -/

/-- **C1.** For every `acquire` call that returns a denial (reason `concurrency`,
`policy`, or `rate`), the observable state of every limiter is net-unchanged from
the pre-call state: any concurrency weight provisionally reserved in the
concurrency check is released before returning, and no request-rate timestamp,
token-rate entry, or fairness actor-weight is committed. -/
theorem C1_denied_acquire_rolls_back (g : Governor) (now : ℤ) (fid : String)
    (req : AcquireRequest) (reason : String) (retry : ℤ) (g' : Governor)
    (h : g.acquire now fid req = (AcquireDecision.denied reason retry, g')) :
    g'.obsInFlight = g.obsInFlight ∧
    g'.obsRate now = g.obsRate now ∧
    g'.obsTokens now = g.obsTokens now ∧
    g'.obsFairness = g.obsFairness := by
  unfold Governor.acquire at h
  dsimp only at h
  split at h
  case _ existing g2 heq =>
    exact absurd (congrArg Prod.fst h) (fun hh => AcquireDecision.noConfusion hh)
  case _ g2 heq =>
    have hg2 := congrArg Prod.snd heq
    dsimp only at hg2
    have hrate : g2.rate = g.rate := by
      rw [← hg2]; simp
    have htok : g2.tokenRate = g.tokenRate := by
      rw [← hg2]; simp
    have hfair : g2.fairness = g.fairness := by
      rw [← hg2]; simp
    have hinf : g2.concurrency.map ConcurrencyPool.inFlightWeight =
        g.concurrency.map ConcurrencyPool.inFlightWeight := by
      rw [← hg2]
      rw [Governor.idemLookup_concurrency]
      exact Governor.applyTick_conc_inFlight g now
    have hobsR : g2.obsRate now = g.obsRate now := by
      unfold Governor.obsRate; rw [hrate]
    have hobsT : g2.obsTokens now = g.obsTokens now := by
      unfold Governor.obsTokens; rw [htok]
    have hobsF : g2.obsFairness = g.obsFairness := by
      unfold Governor.obsFairness; rw [hfair]
    have hobsI : g2.obsInFlight = g.obsInFlight := hinf
    split at h
    case _ c heqc =>
      split at h
      case isTrue hok =>
        split at h
        case _ f heqf =>
          split at h
          case isTrue hchk =>
            obtain ⟨hc', hr', ht', hf'⟩ := Governor.rateStage_denied _ _ _ _ _ _ _ _ _ h
            refine ⟨?_, ?_, ?_, ?_⟩
            · rw [← hobsI]
              unfold Governor.obsInFlight
              rw [hc']
              show (Option.map _ (Option.map _ (some _))) = _
              rw [ConcurrencyPool.tryAcquire_snd_of_ok _ _ _ _ hok]
              simp [heqc]
            · rw [← hobsR]
              exact hr'
            · rw [← hobsT]
              exact ht'
            · rw [← hobsF]
              unfold Governor.obsFairness
              rw [hf', heqf]
              show some _ = some _
              rw [FairnessTracker.check_snd_actorWeight]
          case isFalse hchk =>
            obtain ⟨-, h2⟩ := Prod.mk.injEq .. |>.mp h
            rw [← h2]
            refine ⟨?_, by rw [← hobsR]; rfl, by rw [← hobsT]; rfl, ?_⟩
            · rw [← hobsI]
              unfold Governor.obsInFlight
              show some _ = _
              rw [ConcurrencyPool.tryAcquire_snd_of_ok _ _ _ _ hok]
              simp [heqc, ConcurrencyPool.release_add_cancel]
            · rw [← hobsF]
              unfold Governor.obsFairness
              rw [heqf]
              show some _ = some _
              rw [FairnessTracker.recordDenial_actorWeight,
                FairnessTracker.check_snd_actorWeight]
        case _ heqf =>
          obtain ⟨hc', hr', ht', hf'⟩ := Governor.rateStage_denied _ _ _ _ _ _ _ _ _ h
          refine ⟨?_, by rw [← hobsR]; exact hr', by rw [← hobsT]; exact ht', ?_⟩
          · rw [← hobsI]
            unfold Governor.obsInFlight
            rw [hc']
            show (Option.map _ (Option.map _ (some _))) = _
            rw [ConcurrencyPool.tryAcquire_snd_of_ok _ _ _ _ hok]
            simp [heqc]
          · rw [← hobsF]
            unfold Governor.obsFairness
            rw [hf']
      case isFalse hok =>
        have hok' : ((c.tryAcquire (req.priority.getD Priority.interactive)
            ((g2.store.earliestExpiry).map (fun e => e - now))
            ((req.estimate.bind Estimate.weight).getD 1)).1).ok = false :=
          Bool.not_eq_true _ |>.mp hok
        obtain ⟨-, h2⟩ := Prod.mk.injEq .. |>.mp h
        rw [← h2]
        refine ⟨?_, by rw [← hobsR]; rfl, by rw [← hobsT]; rfl, ?_⟩
        · rw [← hobsI]
          unfold Governor.obsInFlight
          show some _ = _
          rw [ConcurrencyPool.tryAcquire_snd_of_deny _ _ _ _ hok']
          simp [heqc]
        · rw [← hobsF]
          unfold Governor.obsFairness
          show (Option.map _ (Option.map _ g2.fairness)) = _
          rw [Option.map_map]
          rfl
    case _ heqc =>
      obtain ⟨hc', hr', ht', hf'⟩ := Governor.rateStage_denied _ _ _ _ _ _ _ _ _ h
      refine ⟨?_, by rw [← hobsR]; exact hr', by rw [← hobsT]; exact ht', ?_⟩
      · rw [← hobsI]
        unfold Governor.obsInFlight
        rw [hc', heqc]
        rfl
      · rw [← hobsF]
        unfold Governor.obsFairness
        rw [hf']

unseal Rat.mul Rat.add Rat.sub Rat.inv in
/-- Witness for C1: a concrete denied acquire (full one-slot pool) leaves the
observables unchanged. -/
theorem C1_witness :
    ((fullPool1.acquire 0 "L2" reqSimple).2).obsInFlight = fullPool1.obsInFlight ∧
    ((fullPool1.acquire 0 "L2" reqSimple).2).obsRate 0 = fullPool1.obsRate 0 ∧
    ((fullPool1.acquire 0 "L2" reqSimple).2).obsTokens 0 = fullPool1.obsTokens 0 ∧
    ((fullPool1.acquire 0 "L2" reqSimple).2).obsFairness = fullPool1.obsFairness :=
  C1_denied_acquire_rolls_back fullPool1 0 "L2" reqSimple "concurrency" 1000
    ((fullPool1.acquire 0 "L2" reqSimple).2) (by decide)

/-! ### Claim C4 -/

/-- **C4.** `ConcurrencyPool.tryAcquire` with weight `w` and priority `p` admits and
adds `w` to `in_flight_weight` if and only if `available = effective_max −
in_flight_weight ≥ w` and, when `p = background`, additionally
`available − w ≥ interactive_reserve`; a denial leaves the pool unchanged.
Consequently, when `available` equals a (nonzero) `interactive_reserve`, a weight-1
background request is denied and a weight-1 interactive request is admitted. -/
theorem C4_concurrency_admission (pool : ConcurrencyPool) (p : Priority) (w : ℕ)
    (e? : Option ℤ) :
    ((pool.tryAcquire p e? w).1.ok = true ↔
      ((w : ℤ) ≤ (pool.effectiveMax : ℤ) - (pool.inFlightWeight : ℤ) ∧
        (p = Priority.background →
          (pool.reserveWeight : ℤ) ≤ (pool.effectiveMax : ℤ) - (pool.inFlightWeight : ℤ) - (w : ℤ)))) ∧
    ((pool.tryAcquire p e? w).1.ok = true →
      ((pool.tryAcquire p e? w).2).inFlightWeight = pool.inFlightWeight + w) ∧
    ((pool.tryAcquire p e? w).1.ok = false → (pool.tryAcquire p e? w).2 = pool) ∧
    (1 ≤ pool.reserveWeight →
      (pool.effectiveMax : ℤ) - (pool.inFlightWeight : ℤ) = (pool.reserveWeight : ℤ) →
      (pool.tryAcquire Priority.background e? 1).1.ok = false ∧
      (pool.tryAcquire Priority.interactive e? 1).1.ok = true) := by
  refine ⟨ConcurrencyPool.tryAcquire_ok_iff pool p e? w,
    fun h => by rw [ConcurrencyPool.tryAcquire_snd_of_ok pool p e? w h],
    fun h => ConcurrencyPool.tryAcquire_snd_of_deny pool p e? w h,
    fun hres havail => ⟨?_, ?_⟩⟩
  · by_contra hok
    rw [Bool.not_eq_false] at hok
    obtain ⟨h1, h2⟩ := (ConcurrencyPool.tryAcquire_ok_iff pool Priority.background e? 1).mp hok
    have := h2 rfl
    omega
  · rw [ConcurrencyPool.tryAcquire_ok_iff]
    exact ⟨by omega, fun hh => Priority.noConfusion hh⟩

/-- Witness for C4 at a concrete pool (`max 4`, `reserve 2`, 2 in flight):
`available = reserve = 2`, so background weight-1 is denied and interactive
weight-1 is admitted. -/
theorem C4_witness :
    (({ maxWeight := 4, reserveWeight := 2, effectiveMax := 4, inFlightWeight := 2 } :
        ConcurrencyPool).tryAcquire Priority.background none 1).1.ok = false ∧
    (({ maxWeight := 4, reserveWeight := 2, effectiveMax := 4, inFlightWeight := 2 } :
        ConcurrencyPool).tryAcquire Priority.interactive none 1).1.ok = true :=
  (C4_concurrency_admission
      { maxWeight := 4, reserveWeight := 2, effectiveMax := 4, inFlightWeight := 2 }
      Priority.interactive 1 none).2.2.2 (by decide) (by decide)

/-! ### Claim C6 -/

theorem dropWhile_le_eq_filter_of_sorted (cutoff : ℤ) (l : List ℤ)
    (hs : l.Sorted (· ≤ ·)) :
    l.dropWhile (fun ts => decide (ts ≤ cutoff)) = l.filter (fun ts => decide (cutoff < ts)) := by
  induction l with
  | nil => simp
  | cons a rest ih =>
      rw [List.sorted_cons] at hs
      by_cases h : a ≤ cutoff
      · have h2 : ¬ cutoff < a := not_lt.mpr h
        simp only [List.dropWhile_cons, List.filter_cons, h, h2]
        simpa [h, h2] using ih hs.2
      · have h2 : cutoff < a := not_le.mp h
        simp only [List.dropWhile_cons, List.filter_cons, h, h2]
        refine congrArg (List.cons a) (Eq.symm (List.filter_eq_self.mpr ?_))
        intro b hb
        have hb2 : cutoff < b := lt_of_lt_of_le h2 (hs.1 b hb)
        simpa using hb2

theorem RatePool.size_eq_live_length (p : RatePool) : p.size = p.live.length := by
  simp [RatePool.size, RatePool.live]

/-- **C6.** For a request-rate pool with cap `c` and window length `w`: if exactly
`c` requests are recorded at time `t`, a `tryAcquire` at `t + w − 1` is denied with
`retry_after_ms = oldest_ts + w − now` clamped to `[25, 5000]`, and a `tryAcquire`
at `t + w` is admitted; pruning removes exactly the entries with
`timestamp ≤ now − w` (for a monotone, i.e. sorted, window). -/
theorem C6_rate_window_slide (c : ℕ) (t w : ℤ) (hc : 1 ≤ c) :
    ((({ limit := c, windowMs := w, timestamps := List.replicate c t, head := 0 } :
        RatePool).tryAcquire (t + w - 1)).1.ok = false) ∧
    ((({ limit := c, windowMs := w, timestamps := List.replicate c t, head := 0 } :
        RatePool).tryAcquire (t + w - 1)).1.retryAfterMs =
      some (clampRetry ((t + w - (t + w - 1) : ℤ) : ℚ))) ∧
    ((({ limit := c, windowMs := w, timestamps := List.replicate c t, head := 0 } :
        RatePool).tryAcquire (t + w)).1.ok = true) ∧
    (∀ (q : RatePool) (now : ℤ), (q.live).Sorted (· ≤ ·) →
      (q.prune now).live = q.live.filter (fun ts => decide (now - q.windowMs < ts))) := by
  obtain ⟨n, rfl⟩ : ∃ n, c = n + 1 := ⟨c - 1, by omega⟩
  have hp1 : (({ limit := n + 1, windowMs := w, timestamps := List.replicate (n + 1) t, head := 0 } : RatePool).prune (t + w - 1)) = { limit := n + 1, windowMs := w, timestamps := List.replicate (n + 1) t, head := 0 } := by
    unfold RatePool.prune
    dsimp only
    have hcount : pruneCount (t + w - 1 - w) (List.replicate (n + 1) t) = 0 := by
      rw [List.replicate_succ]
      unfold pruneCount
      rw [if_neg (by omega)]
    rw [List.drop_zero, hcount]
    simp
  have hsize2 : (({ limit := n + 1, windowMs := w, timestamps := List.replicate (n + 1) t, head := 0 } : RatePool).prune (t + w)).size = 0 := by
    rw [RatePool.size_eq_live_length, RatePool.prune_live]
    have hdw : (List.replicate (n + 1) t).dropWhile (fun ts => decide (ts ≤ t + w - w)) = [] := by
      rw [List.dropWhile_eq_nil_iff]
      intro x hx
      rw [List.eq_of_mem_replicate hx]
      simp only [decide_eq_true_eq]
      omega
    show ((List.drop 0 (List.replicate (n + 1) t)).dropWhile _).length = 0
    rw [List.drop_zero, hdw]
    rfl
  refine ⟨?_, ?_, ?_, ?_⟩
  · unfold RatePool.tryAcquire
    dsimp only
    rw [hp1]
    rw [if_pos (by unfold RatePool.size; simp)]
  · unfold RatePool.tryAcquire
    dsimp only
    rw [hp1]
    rw [if_pos (by unfold RatePool.size; simp)]
    dsimp only
    rw [List.replicate_succ]
    rfl
  · unfold RatePool.tryAcquire
    dsimp only
    rw [if_neg (by simp only [RatePool.prune_limit, hsize2]; omega)]
  · intro q now hs
    rw [RatePool.prune_live]
    exact dropWhile_le_eq_filter_of_sorted _ _ hs

/-- Witness for C6 at `cap = 2`, `t = 0`, `w = 1000`: denial at `t + w − 1 = 999`
and admission at `t + w = 1000`. -/
theorem C6_witness :
    ((({ limit := 2, windowMs := 1000, timestamps := List.replicate 2 0, head := 0 } :
        RatePool).tryAcquire 999).1.ok = false) ∧
    ((({ limit := 2, windowMs := 1000, timestamps := List.replicate 2 0, head := 0 } :
        RatePool).tryAcquire 1000).1.ok = true) :=
  ⟨by
    have h := (C6_rate_window_slide 2 0 1000 (by decide)).1
    simpa using h,
   by
    have h := (C6_rate_window_slide 2 0 1000 (by decide)).2.2.1
    simpa using h⟩

/-! ### Claim C9 -/

/-- **C9.** In non-strict mode (the default), calling `release` with a lease id
that is not in the store is a no-op that changes no state and returns without
error; in strict mode, releasing an id that was already released throws
`DoubleRelease` and releasing an id the store does not hold throws `UnknownLease`. -/
theorem C9_release_misuse (g : Governor) (now : ℤ) (id : String)
    (rpt : Option ReleaseReport) :
    (g.strict = false → mapGet g.store.leases id = none →
      g.release now id rpt = Except.ok g) ∧
    (g.strict = true → id ∈ g.releasedIds →
      g.release now id rpt = Except.error GovError.doubleRelease) ∧
    (g.strict = true → id ∉ g.releasedIds → mapGet g.store.leases id = none →
      g.release now id rpt = Except.error GovError.unknownLease) := by
  refine ⟨?_, ?_, ?_⟩
  · intro hs hm
    have hrem : g.store.remove id = (none, g.store) := by
      unfold LeaseStore.remove
      rw [hm]
    unfold Governor.release
    rw [if_neg (by simp [hs]), hrem]
    dsimp only
    rw [if_neg (by simp [hs])]
  · intro hs hmem
    unfold Governor.release
    rw [if_pos ⟨hs, hmem⟩]
  · intro hs hmem hm
    have hrem : g.store.remove id = (none, g.store) := by
      unfold LeaseStore.remove
      rw [hm]
    unfold Governor.release
    rw [if_neg (fun hc => hmem hc.2), hrem]
    simp [hs]

/-- Witness for C9: non-strict unknown release is a no-op; strict double release
and strict unknown release throw. -/
theorem C9_witness :
    fullPool1.release 0 "zz" none = Except.ok fullPool1 ∧
    strictGov.release 0 "L0" none = Except.error GovError.doubleRelease ∧
    strictGov.release 0 "L1" none = Except.error GovError.unknownLease :=
  ⟨(C9_release_misuse fullPool1 0 "zz" none).1 (by decide) (by decide),
   (C9_release_misuse strictGov 0 "L0" none).2.1 (by decide) (by decide),
   (C9_release_misuse strictGov 0 "L1" none).2.2 (by decide) (by decide) (by decide)⟩

/-! ### Claim C3 -/

/-- Every denial produced by the request-rate / token-rate stages carries reason
`"rate"`. -/
theorem Governor.rateStage_denied_reason (g : Governor) (now : ℤ) (fid : String)
    (req : AcquireRequest) (pr : Priority) (w : ℕ) (r : String) (retry : ℤ) (g' : Governor)
    (h : Governor.rateStage g now fid req pr w = (AcquireDecision.denied r retry, g')) :
    r = "rate" := by
  unfold Governor.rateStage Governor.tokenStage Governor.commitStage at h
  dsimp only at h
  split at h
  · split at h
    · split at h
      · split at h
        · exact absurd (congrArg Prod.fst h) (fun hh => AcquireDecision.noConfusion hh)
        · obtain ⟨h1, -⟩ := Prod.mk.injEq .. |>.mp h
          injection h1 with hr _
          exact hr.symm
      · exact absurd (congrArg Prod.fst h) (fun hh => AcquireDecision.noConfusion hh)
    · obtain ⟨h1, -⟩ := Prod.mk.injEq .. |>.mp h
      injection h1 with hr _
      exact hr.symm
  · split at h
    · split at h
      · exact absurd (congrArg Prod.fst h) (fun hh => AcquireDecision.noConfusion hh)
      · obtain ⟨h1, -⟩ := Prod.mk.injEq .. |>.mp h
        injection h1 with hr _
        exact hr.symm
    · exact absurd (congrArg Prod.fst h) (fun hh => AcquireDecision.noConfusion hh)

unseal Rat.mul Rat.add Rat.sub Rat.inv in
/-- **C3.** A denial with reason `concurrency` returns `retry_after_ms` equal to
the milliseconds until the earliest active lease expiry (from the lease store)
when positive, otherwise `round(250 + (in_flight_weight / effective_max) * 750)`,
both clamped to `[25, 5000]`; and in the S1 scenario (`max_in_flight = 1`,
`lease_ttl_ms = 1000`), a grant at `t = 0` is followed at `t = 10` by a denial
with reason `concurrency` and `retry_after_ms = 990`. -/
theorem C3_concurrency_retry_hint (g : Governor) (now : ℤ) (fid : String)
    (req : AcquireRequest) (retry : ℤ) (g' : Governor) (c : ConcurrencyPool)
    (h : g.acquire now fid req = (AcquireDecision.denied "concurrency" retry, g'))
    (hc : g'.concurrency = some c) (heff : 1 ≤ c.effectiveMax) :
    (retry =
      match g'.store.earliestExpiry with
      | some e =>
          if 0 < e - now then clampRetry ((e - now : ℤ) : ℚ)
          else clampRetry (250 + ((c.inFlightWeight : ℚ) / (c.effectiveMax : ℚ)) * 750)
      | none => clampRetry (250 + ((c.inFlightWeight : ℚ) / (c.effectiveMax : ℚ)) * 750)) ∧
    ((Governor.mk? { concurrency := some { maxInFlight := 1, interactiveReserve := none }, rate := none, fairness := none, adaptive := none, leaseTtlMs := some 1000, strict := none }).map (fun g0 =>
          ((g0.acquire 0 "L1" reqSimple).1,
           (((g0.acquire 0 "L1" reqSimple).2).acquire 10 "L2" reqSimple).1)) =
      some (AcquireDecision.granted "L1" 1000, AcquireDecision.denied "concurrency" 990)) := by
  refine ⟨?_, by decide⟩
  unfold Governor.acquire at h
  dsimp only at h
  split at h
  case _ existing g2 heq =>
    exact absurd (congrArg Prod.fst h) (fun hh => AcquireDecision.noConfusion hh)
  case _ g2 heq =>
    split at h
    case _ cp heqc =>
      split at h
      case isTrue hok =>
        split at h
        case _ f heqf =>
          split at h
          case isTrue hchk =>
            have := Governor.rateStage_denied_reason _ _ _ _ _ _ _ _ _ h
            exact absurd this (by decide)
          case isFalse hchk =>
            obtain ⟨h1, -⟩ := Prod.mk.injEq .. |>.mp h
            injection h1 with hr _
            exact absurd hr (by decide)
        case _ heqf =>
          have := Governor.rateStage_denied_reason _ _ _ _ _ _ _ _ _ h
          exact absurd this (by decide)
      case isFalse hok =>
        have hok' : ((cp.tryAcquire (req.priority.getD Priority.interactive)
            ((g2.store.earliestExpiry).map (fun e => e - now))
            ((req.estimate.bind Estimate.weight).getD 1)).1).ok = false :=
          Bool.not_eq_true _ |>.mp hok
        obtain ⟨h1, h2⟩ := Prod.mk.injEq .. |>.mp h
        injection h1 with _ hretry
        have hcc : c = (cp.tryAcquire (req.priority.getD Priority.interactive)
            ((g2.store.earliestExpiry).map (fun e => e - now))
            ((req.estimate.bind Estimate.weight).getD 1)).2 := by
          rw [← h2] at hc
          exact (Option.some.injEq .. |>.mp hc.symm)
        have hstore : g'.store = g2.store := by
          rw [← h2]
        rw [← hretry, ConcurrencyPool.tryAcquire_deny_retry _ _ _ _ hok']
        rw [hcc, ConcurrencyPool.tryAcquire_snd_of_deny _ _ _ _ hok']
        rw [hstore]
        unfold ConcurrencyPool.computeRetry
        dsimp only
        have heff' : ¬ cp.effectiveMax = 0 := by
          rw [hcc, ConcurrencyPool.tryAcquire_snd_of_deny _ _ _ _ hok'] at heff
          omega
        rw [if_neg heff']
        cases hee : g2.store.earliestExpiry with
        | none => rfl
        | some e =>
            dsimp only [Option.map, Option.getD]
    case _ heqc =>
      have := Governor.rateStage_denied_reason _ _ _ _ _ _ _ _ _ h
      exact absurd this (by decide)

unseal Rat.mul Rat.add Rat.sub Rat.inv in
/-- Witness for C3: the denial of `C1_witness`'s scenario (empty store, full
one-slot pool) gets the pressure-heuristic hint `round(250 + (1/1)*750) = 1000`. -/
theorem C3_witness :
    (1000 : ℤ) =
      (match ((fullPool1.acquire 0 "L2" reqSimple).2).store.earliestExpiry with
      | some e =>
          if 0 < e - 0 then clampRetry ((e - 0 : ℤ) : ℚ)
          else clampRetry (250 + ((({ maxWeight := 1, reserveWeight := 0, effectiveMax := 1, inFlightWeight := 1 } : ConcurrencyPool).inFlightWeight : ℚ) / (({ maxWeight := 1, reserveWeight := 0, effectiveMax := 1, inFlightWeight := 1 } : ConcurrencyPool).effectiveMax : ℚ)) * 750)
      | none => clampRetry (250 + ((({ maxWeight := 1, reserveWeight := 0, effectiveMax := 1, inFlightWeight := 1 } : ConcurrencyPool).inFlightWeight : ℚ) / (({ maxWeight := 1, reserveWeight := 0, effectiveMax := 1, inFlightWeight := 1 } : ConcurrencyPool).effectiveMax : ℚ)) * 750)) :=
  (C3_concurrency_retry_hint fullPool1 0 "L2" reqSimple 1000
    ((fullPool1.acquire 0 "L2" reqSimple).2)
    { maxWeight := 1, reserveWeight := 0, effectiveMax := 1, inFlightWeight := 1 }
    (by decide) (by decide) (by decide)).1

/-! ### Claim C5 -/

/-- Recording an acquire for fairness touches only the actor weights. -/
theorem FairnessTracker.recordAcquire_deniedAt (t : FairnessTracker) (a : String) (w : ℕ) :
    (t.recordAcquire a w).deniedAt = t.deniedAt := rfl

/-- The rate / token / commit pipeline never touches the fairness denial
timestamps. -/
theorem Governor.rateStage_fairness_deniedAt (g : Governor) (now : ℤ) (fid : String)
    (req : AcquireRequest) (pr : Priority) (w : ℕ) :
    ((((Governor.rateStage g now fid req pr w).2).fairness).map FairnessTracker.deniedAt) =
      ((g.fairness).map FairnessTracker.deniedAt) := by
  unfold Governor.rateStage Governor.tokenStage Governor.commitStage
  dsimp only
  repeat' split
  all_goals simp_all [FairnessTracker.recordAcquire_deniedAt]

/-- **C5.** With fairness enabled, an acquire that passed the concurrency check is
denied with reason `policy` exactly when the pool is under pressure
(`in_flight_weight ≥ 0.5 * max_weight`, the in-flight weight including this
acquire's provisional reservation) and the actor's tracked weight plus the request
weight exceeds `soft_cap_ratio * max_weight`, unless the actor has a denial
recorded within the last `starvation_window_ms` — in which case the block is
lifted once and that denial timestamp is cleared. -/
theorem C5_fairness_policy_denial (g : Governor) (now : ℤ) (fid : String)
    (req : AcquireRequest) (c : ConcurrencyPool) (f : FairnessTracker)
    (hidem : (((g.applyTick now).idemLookup req.idempotencyKey).1) = none)
    (hc : ((((g.applyTick now).idemLookup req.idempotencyKey).2)).concurrency = some c)
    (hf : ((((g.applyTick now).idemLookup req.idempotencyKey).2)).fairness = some f)
    (hok : ((c.tryAcquire (req.priority.getD Priority.interactive)
        (((((g.applyTick now).idemLookup req.idempotencyKey).2).store.earliestExpiry).map
          (fun e => e - now))
        ((req.estimate.bind Estimate.weight).getD 1)).1).ok = true)
    (hnd : (f.deniedAt.map Prod.fst).Nodup) :
    ((∃ r, (g.acquire now fid req).1 = AcquireDecision.denied "policy" r) ↔
      ((c.maxWeight : ℚ) * (1 / 2) ≤
          ((c.inFlightWeight + (req.estimate.bind Estimate.weight).getD 1 : ℕ) : ℚ) ∧
        (c.maxWeight : ℚ) * f.softCapRatio <
          ((mapGet f.actorWeight req.actorId).getD 0 : ℚ) +
            (((req.estimate.bind Estimate.weight).getD 1 : ℕ) : ℚ) ∧
        ¬ ∃ last, mapGet f.deniedAt req.actorId = some last ∧
            now - last < f.starvationWindowMs)) ∧
    (((c.maxWeight : ℚ) * (1 / 2) ≤
          ((c.inFlightWeight + (req.estimate.bind Estimate.weight).getD 1 : ℕ) : ℚ) ∧
        (c.maxWeight : ℚ) * f.softCapRatio <
          ((mapGet f.actorWeight req.actorId).getD 0 : ℚ) +
            (((req.estimate.bind Estimate.weight).getD 1 : ℕ) : ℚ) ∧
        (∃ last, mapGet f.deniedAt req.actorId = some last ∧
            now - last < f.starvationWindowMs)) →
      (((g.acquire now fid req).2).fairness).map
        (fun f' => mapGet f'.deniedAt req.actorId) = some none) := by
  have hml : (g.applyTick now).idemLookup req.idempotencyKey =
      (none, ((g.applyTick now).idemLookup req.idempotencyKey).2) := by
    have he : ((((g.applyTick now).idemLookup req.idempotencyKey).1),
        (((g.applyTick now).idemLookup req.idempotencyKey).2)) =
        (g.applyTick now).idemLookup req.idempotencyKey := rfl
    rw [← he, hidem]
  have hres2 := ConcurrencyPool.tryAcquire_snd_of_ok _ _ _ _ hok
  unfold Governor.acquire
  dsimp only
  rw [hml]
  dsimp only
  rw [hc]
  dsimp only
  rw [if_pos hok, hf]
  dsimp only
  rw [hres2]
  dsimp only
  by_cases hchk : (f.check req.actorId ((req.estimate.bind Estimate.weight).getD 1) c.maxWeight
      (c.inFlightWeight + (req.estimate.bind Estimate.weight).getD 1) now).1 = true
  · rw [if_pos hchk]
    have hnotfalse : ¬ (f.check req.actorId ((req.estimate.bind Estimate.weight).getD 1)
        c.maxWeight (c.inFlightWeight + (req.estimate.bind Estimate.weight).getD 1) now).1 = false := by
      rw [hchk]
      exact fun hh => Bool.noConfusion hh
    rw [FairnessTracker.check_fst_false_iff] at hnotfalse
    constructor
    · constructor
      · rintro ⟨r, hr⟩
        exfalso
        rcases hd : Governor.rateStage
            { store := (((g.applyTick now).idemLookup req.idempotencyKey).2).store,
              concurrency := some { maxWeight := c.maxWeight, reserveWeight := c.reserveWeight, effectiveMax := c.effectiveMax, inFlightWeight := c.inFlightWeight + (req.estimate.bind Estimate.weight).getD 1 },
              rate := (((g.applyTick now).idemLookup req.idempotencyKey).2).rate,
              tokenRate := (((g.applyTick now).idemLookup req.idempotencyKey).2).tokenRate,
              fairness := some (f.check req.actorId ((req.estimate.bind Estimate.weight).getD 1) c.maxWeight (c.inFlightWeight + (req.estimate.bind Estimate.weight).getD 1) now).2,
              adaptive := (((g.applyTick now).idemLookup req.idempotencyKey).2).adaptive,
              ttlMs := (((g.applyTick now).idemLookup req.idempotencyKey).2).ttlMs,
              strict := (((g.applyTick now).idemLookup req.idempotencyKey).2).strict,
              releasedIds := (((g.applyTick now).idemLookup req.idempotencyKey).2).releasedIds }
            now fid req (req.priority.getD Priority.interactive)
            ((req.estimate.bind Estimate.weight).getD 1) with ⟨d, gF⟩
        rw [hd] at hr
        dsimp only at hr
        rw [hr] at hd
        have := Governor.rateStage_denied_reason _ _ _ _ _ _ _ _ _ hd
        exact absurd (this ▸ rfl) (by decide : ("policy" : String) ≠ "rate")
      · intro hcond
        exact absurd ⟨hcond.1, hcond.2.1, hcond.2.2⟩ hnotfalse
    · rintro ⟨h1, h2, last, hl, hrec⟩
      have hcp := FairnessTracker.check_pass_consumes f req.actorId
        ((req.estimate.bind Estimate.weight).getD 1) c.maxWeight
        (c.inFlightWeight + (req.estimate.bind Estimate.weight).getD 1) now last h1 h2 hl hrec
      have := Governor.rateStage_fairness_deniedAt
        { store := (((g.applyTick now).idemLookup req.idempotencyKey).2).store,
          concurrency := some { maxWeight := c.maxWeight, reserveWeight := c.reserveWeight, effectiveMax := c.effectiveMax, inFlightWeight := c.inFlightWeight + (req.estimate.bind Estimate.weight).getD 1 },
          rate := (((g.applyTick now).idemLookup req.idempotencyKey).2).rate,
          tokenRate := (((g.applyTick now).idemLookup req.idempotencyKey).2).tokenRate,
          fairness := some (f.check req.actorId ((req.estimate.bind Estimate.weight).getD 1) c.maxWeight (c.inFlightWeight + (req.estimate.bind Estimate.weight).getD 1) now).2,
          adaptive := (((g.applyTick now).idemLookup req.idempotencyKey).2).adaptive,
          ttlMs := (((g.applyTick now).idemLookup req.idempotencyKey).2).ttlMs,
          strict := (((g.applyTick now).idemLookup req.idempotencyKey).2).strict,
          releasedIds := (((g.applyTick now).idemLookup req.idempotencyKey).2).releasedIds }
        now fid req (req.priority.getD Priority.interactive)
        ((req.estimate.bind Estimate.weight).getD 1)
      rw [hcp] at this ⊢
      dsimp only at this ⊢
      rcases ho : ((Governor.rateStage _ now fid req _ _).2).fairness with _ | f2
      · rw [ho] at this
        cases this
      · rw [ho] at this
        dsimp only [Option.map] at this ⊢
        have hdeq : f2.deniedAt = mapDelete f.deniedAt req.actorId := by
          injection this
        rw [hdeq, mapGet_mapDelete_self _ _ hnd]
  · have hfalse : (f.check req.actorId ((req.estimate.bind Estimate.weight).getD 1) c.maxWeight
        (c.inFlightWeight + (req.estimate.bind Estimate.weight).getD 1) now).1 = false :=
      Bool.not_eq_true _ |>.mp hchk
    rw [if_neg hchk]
    have hcond := FairnessTracker.check_fst_false_iff f req.actorId
      ((req.estimate.bind Estimate.weight).getD 1) c.maxWeight
      (c.inFlightWeight + (req.estimate.bind Estimate.weight).getD 1) now |>.mp hfalse
    constructor
    · constructor
      · intro _
        exact ⟨hcond.1, hcond.2.1, hcond.2.2⟩
      · intro _
        exact ⟨_, rfl⟩
    · rintro ⟨h1, h2, last, hl, hrec⟩
      exfalso
      have hcp := FairnessTracker.check_pass_consumes f req.actorId
        ((req.estimate.bind Estimate.weight).getD 1) c.maxWeight
        (c.inFlightWeight + (req.estimate.bind Estimate.weight).getD 1) now last h1 h2 hl hrec
      rw [hcp] at hfalse
      cases hfalse

unseal Rat.mul Rat.add Rat.sub Rat.inv in
/-- Witness for C5: actor `"a"` holds 5 of 10 weight units (soft cap 1/2, under
pressure), so its next acquire is denied with reason `policy`. -/
theorem C5_witness :
    ∃ r, (fairGov.acquire 0 "L9" reqSimple).1 = AcquireDecision.denied "policy" r :=
  ((C5_fairness_policy_denial fairGov 0 "L9" reqSimple
      { maxWeight := 10, reserveWeight := 0, effectiveMax := 10, inFlightWeight := 5 }
      { softCapRatio := 1 / 2, starvationWindowMs := 5000, actorWeight := [("a", 5)], deniedAt := [] }
      rfl rfl rfl (by decide) (by decide)).1).mpr
    ⟨by norm_num, by norm_num [mapGet, reqSimple], by rintro ⟨l, hl, -⟩; cases hl⟩

/-! ### Claim C2 -/

theorem Governor.GovInv_congr (A : Prop) (g g' : Governor)
    (hc : g'.concurrency = g.concurrency) (ha : g'.adaptive = g.adaptive)
    (h : GovInv A g) : GovInv A g' := by
  obtain ⟨h1, h2⟩ := h
  exact ⟨fun hA => ha ▸ h1 hA, fun c hcc => h2 c (hc ▸ hcc)⟩

theorem ConcurrencyPool.setEffectiveMax_bounds (c : ConcurrencyPool) (v : ℕ)
    (hm : 1 ≤ c.maxWeight) :
    1 ≤ (c.setEffectiveMax v).effectiveMax ∧ (c.setEffectiveMax v).effectiveMax ≤ c.maxWeight := by
  unfold ConcurrencyPool.setEffectiveMax
  dsimp only
  omega

theorem Governor.applyTick_inv (A : Prop) (g : Governor) (now : ℤ)
    (h : GovInv A g) : GovInv A (g.applyTick now) := by
  obtain ⟨hA, hP⟩ := h
  unfold Governor.applyTick
  split
  · rename_i a c ha hc
    constructor
    · intro hAn
      rw [hA hAn] at ha
      cases ha
    · intro c' hc'
      have hc'' : c.setEffectiveMax (a.maybeAdjust now).2 = c' := by
        injection hc'
      obtain ⟨h1, h2, h3, h4⟩ := hP c hc
      obtain ⟨hb1, hb2⟩ := ConcurrencyPool.setEffectiveMax_bounds c (a.maybeAdjust now).2 h1
      rw [← hc'']
      refine ⟨by simpa using h1, hb1, by simpa using hb2, ?_⟩
      intro hAn
      rw [hA hAn] at ha
      cases ha
  · exact ⟨hA, hP⟩

theorem Governor.rateStage_concurrency_cases (g : Governor) (now : ℤ) (fid : String)
    (req : AcquireRequest) (pr : Priority) (w : ℕ) :
    (((Governor.rateStage g now fid req pr w).2).concurrency = g.concurrency) ∨
    (((Governor.rateStage g now fid req pr w).2).concurrency =
      g.concurrency.map (fun c => c.release w)) := by
  unfold Governor.rateStage Governor.tokenStage Governor.commitStage
  dsimp only
  repeat' split
  all_goals first
    | (left; simp; done)
    | (right; simp; done)

theorem Governor.rateStage_adaptive_none (g : Governor) (now : ℤ) (fid : String)
    (req : AcquireRequest) (pr : Priority) (w : ℕ) (h : g.adaptive = none) :
    (((Governor.rateStage g now fid req pr w).2)).adaptive = none := by
  unfold Governor.rateStage Governor.tokenStage Governor.commitStage
  dsimp only
  repeat' split
  all_goals simp_all

theorem Governor.rateStage_inv (A : Prop) (g : Governor) (now : ℤ) (fid : String)
    (req : AcquireRequest) (pr : Priority) (w : ℕ)
    (h : GovInv A g) : GovInv A ((Governor.rateStage g now fid req pr w).2) := by
  obtain ⟨hA, hP⟩ := h
  constructor
  · intro hAn
    exact Governor.rateStage_adaptive_none g now fid req pr w (hA hAn)
  · intro c' hc'
    rcases Governor.rateStage_concurrency_cases g now fid req pr w with hcc | hcc
    · rw [hcc] at hc'
      exact hP c' hc'
    · rw [hcc] at hc'
      cases hg : g.concurrency with
      | none => rw [hg] at hc'; cases hc'
      | some c0 =>
          rw [hg] at hc'
          have hc0 : c0.release w = c' := by
            injection hc'
          obtain ⟨h1, h2, h3, h4⟩ := hP c0 hg
          rw [← hc0]
          refine ⟨by simpa [ConcurrencyPool.release] using h1, by simpa [ConcurrencyPool.release] using h2,
            by simpa [ConcurrencyPool.release] using h3, ?_⟩
          intro hAn
          have := h4 hAn
          simp only [ConcurrencyPool.release]
          omega

set_option maxHeartbeats 1000000 in
theorem Governor.releaseBook_concurrency (g : Governor) (lease : Lease) (id : String)
    (rpt : Option ReleaseReport) :
    (Governor.releaseBook g lease id rpt).concurrency =
      g.concurrency.map (fun c => c.release lease.weight) := by
  unfold Governor.releaseBook
  dsimp only
  cases hs : g.strict <;>
    cases hc : g.concurrency <;>
    cases hf : g.fairness <;>
    cases ht : g.tokenRate <;>
    cases hu : rpt.bind ReleaseReport.usage <;>
    cases ha : g.adaptive <;>
    cases hl : rpt.bind ReleaseReport.latencyMs <;>
    simp [hs, hc, hf, ht, hu, ha, hl, apply_ite]

set_option maxHeartbeats 1000000 in
theorem Governor.releaseBook_adaptive_none (g : Governor) (lease : Lease) (id : String)
    (rpt : Option ReleaseReport) (h : g.adaptive = none) :
    (Governor.releaseBook g lease id rpt).adaptive = none := by
  unfold Governor.releaseBook
  dsimp only
  cases hs : g.strict <;>
    cases hc : g.concurrency <;>
    cases hf : g.fairness <;>
    cases ht : g.tokenRate <;>
    cases hu : rpt.bind ReleaseReport.usage <;>
    simp [hs, hc, hf, ht, hu, h, apply_ite]

theorem Governor.release_ok_concurrency_cases (g : Governor) (now : ℤ) (id : String)
    (rpt : Option ReleaseReport) (g' : Governor)
    (h : g.release now id rpt = Except.ok g') :
    g'.concurrency = g.concurrency ∨
    ∃ wt, g'.concurrency = g.concurrency.map (fun c => c.release wt) := by
  unfold Governor.release at h
  split at h
  · exact Except.noConfusion h
  · split at h
    · split at h
      · exact Except.noConfusion h
      · injection h with hg'
        left
        rw [← hg']
    · injection h with hg'
      right
      rename_i lease s' heq
      refine ⟨lease.weight, ?_⟩
      rw [← hg', Governor.releaseBook_concurrency]

theorem Governor.release_ok_adaptive_none (g : Governor) (now : ℤ) (id : String)
    (rpt : Option ReleaseReport) (g' : Governor)
    (h : g.release now id rpt = Except.ok g') (ha : g.adaptive = none) :
    g'.adaptive = none := by
  unfold Governor.release at h
  split at h
  · exact Except.noConfusion h
  · split at h
    · split at h
      · exact Except.noConfusion h
      · injection h with hg'
        rw [← hg']
        exact ha
    · injection h with hg'
      rw [← hg']
      exact Governor.releaseBook_adaptive_none _ _ _ _ ha

theorem Governor.expireOne_inv (A : Prop) (g : Governor) (l : Lease)
    (h : GovInv A g) : GovInv A (g.expireOne l) := by
  obtain ⟨hA, hP⟩ := h
  unfold Governor.expireOne
  dsimp only
  constructor
  · intro hAn
    cases hc : g.concurrency <;> cases hf : g.fairness <;> simp [hc, hf, hA hAn]
  · intro c' hc'
    cases hc : g.concurrency with
    | none =>
        cases hf : g.fairness <;> simp_all
    | some c0 =>
        obtain ⟨h1, h2, h3, h4⟩ := hP c0 hc
        have hc'' : c0.release l.weight = c' := by
          cases hf : g.fairness <;> simp_all
        rw [← hc'']
        refine ⟨by simpa [ConcurrencyPool.release] using h1,
          by simpa [ConcurrencyPool.release] using h2,
          by simpa [ConcurrencyPool.release] using h3, ?_⟩
        intro hAn
        have := h4 hAn
        simp only [ConcurrencyPool.release]
        omega

theorem Governor.applyOp_inv (A : Prop) (g : Governor) (op : GOp)
    (h : GovInv A g) : GovInv A (Governor.applyOp g op) := by
  cases op with
  | acquire now fid req =>
      have h1 := Governor.applyTick_inv A g now h
      show GovInv A ((g.acquire now fid req).2)
      unfold Governor.acquire
      dsimp only
      have h2 : GovInv A (((g.applyTick now).idemLookup req.idempotencyKey).2) :=
        Governor.GovInv_congr A _ _ (by simp) (by simp) h1
      split
      · rename_i existing g2 heq
        have hg2 : ((g.applyTick now).idemLookup req.idempotencyKey).2 = g2 :=
          congrArg Prod.snd heq
        exact Governor.GovInv_congr A _ _ (by rw [← hg2]) (by rw [← hg2]) h2
      · rename_i g2 heq
        have hg2 : ((g.applyTick now).idemLookup req.idempotencyKey).2 = g2 :=
          congrArg Prod.snd heq
        have h3 : GovInv A g2 :=
          Governor.GovInv_congr A _ _ (by rw [← hg2]) (by rw [← hg2]) h2
        obtain ⟨h3A, h3P⟩ := h3
        split
        · rename_i c heqc
          obtain ⟨hm1, hm2, hm3, hm4⟩ := h3P c heqc
          split
          · rename_i hok
            have hresIF : ((c.tryAcquire (req.priority.getD Priority.interactive)
                ((g2.store.earliestExpiry).map (fun e => e - now))
                ((req.estimate.bind Estimate.weight).getD 1)).2).inFlightWeight ≤ c.effectiveMax := by
              rw [ConcurrencyPool.tryAcquire_snd_of_ok _ _ _ _ hok]
              have hiff := (ConcurrencyPool.tryAcquire_ok_iff c
                (req.priority.getD Priority.interactive)
                ((g2.store.earliestExpiry).map (fun e => e - now))
                ((req.estimate.bind Estimate.weight).getD 1)).mp hok
              dsimp only
              omega
            have hresPool : GovInv A { g2 with
                concurrency := some ((c.tryAcquire (req.priority.getD Priority.interactive)
                  ((g2.store.earliestExpiry).map (fun e => e - now))
                  ((req.estimate.bind Estimate.weight).getD 1)).2) } := by
              constructor
              · intro hAn
                exact h3A hAn
              · intro c' hc'
                have hcx : (c.tryAcquire (req.priority.getD Priority.interactive)
                    ((g2.store.earliestExpiry).map (fun e => e - now))
                    ((req.estimate.bind Estimate.weight).getD 1)).2 = c' := by
                  injection hc'
                rw [ConcurrencyPool.tryAcquire_snd_of_ok _ _ _ _ hok] at hcx
                rw [← hcx]
                rw [ConcurrencyPool.tryAcquire_snd_of_ok _ _ _ _ hok] at hresIF
                exact ⟨hm1, hm2, hm3, fun _ => hresIF⟩
            split
            · rename_i f heqf
              split
              · exact Governor.rateStage_inv A _ now fid req _ _
                  (Governor.GovInv_congr A _ _ (by simp) (by simp) hresPool)
              · constructor
                · intro hAn
                  simp [h3A hAn]
                · intro c' hc'
                  have hcx : ((c.tryAcquire (req.priority.getD Priority.interactive)
                      ((g2.store.earliestExpiry).map (fun e => e - now))
                      ((req.estimate.bind Estimate.weight).getD 1)).2).release
                      ((req.estimate.bind Estimate.weight).getD 1) = c' := by
                    injection hc'
                  rw [ConcurrencyPool.tryAcquire_snd_of_ok _ _ _ _ hok] at hcx
                  rw [← hcx]
                  refine ⟨by simpa [ConcurrencyPool.release] using hm1,
                    by simpa [ConcurrencyPool.release] using hm2,
                    by simpa [ConcurrencyPool.release] using hm3, ?_⟩
                  intro hAn
                  have := hm4 hAn
                  simp only [ConcurrencyPool.release]
                  omega
            · exact Governor.rateStage_inv A _ now fid req _ _
                (Governor.GovInv_congr A _ _ (by simp) (by simp) hresPool)
          · rename_i hok
            have hok' : ((c.tryAcquire (req.priority.getD Priority.interactive)
                ((g2.store.earliestExpiry).map (fun e => e - now))
                ((req.estimate.bind Estimate.weight).getD 1)).1).ok = false :=
              Bool.not_eq_true _ |>.mp hok
            constructor
            · intro hAn
              simp [h3A hAn]
            · intro c' hc'
              have hcx : (c.tryAcquire (req.priority.getD Priority.interactive)
                  ((g2.store.earliestExpiry).map (fun e => e - now))
                  ((req.estimate.bind Estimate.weight).getD 1)).2 = c' := by
                injection hc'
              rw [ConcurrencyPool.tryAcquire_snd_of_deny _ _ _ _ hok'] at hcx
              rw [← hcx]
              exact ⟨hm1, hm2, hm3, hm4⟩
        · exact Governor.rateStage_inv A g2 now fid req _ _ ⟨h3A, h3P⟩
  | release now id rpt =>
      show GovInv A (match g.release now id rpt with
        | Except.ok g' => g'
        | Except.error _ => g)
      split
      · rename_i g' heq
        obtain ⟨hA, hP⟩ := h
        constructor
        · intro hAn
          exact Governor.release_ok_adaptive_none g now id rpt g' heq (hA hAn)
        · intro c' hc'
          rcases Governor.release_ok_concurrency_cases g now id rpt g' heq with hcc | ⟨wt, hcc⟩
          · rw [hcc] at hc'
            exact hP c' hc'
          · rw [hcc] at hc'
            cases hg : g.concurrency with
            | none => rw [hg] at hc'; cases hc'
            | some c0 =>
                rw [hg] at hc'
                have hc0 : c0.release wt = c' := by
                  injection hc'
                obtain ⟨h1, h2, h3, h4⟩ := hP c0 hg
                rw [← hc0]
                refine ⟨by simpa [ConcurrencyPool.release] using h1,
                  by simpa [ConcurrencyPool.release] using h2,
                  by simpa [ConcurrencyPool.release] using h3, ?_⟩
                intro hAn
                have := h4 hAn
                simp only [ConcurrencyPool.release]
                omega
      · exact h
  | sweep now =>
      show GovInv A (g.sweepOp now)
      unfold Governor.sweepOp
      dsimp only
      have hbase : GovInv A { g with store := (g.store.sweep now).2 } :=
        Governor.GovInv_congr A _ _ (by simp) (by simp) h
      generalize (g.store.sweep now).1 = ls
      generalize hgs : ({ g with store := (g.store.sweep now).2 } : Governor) = gs at hbase
      clear hgs
      induction ls generalizing gs with
      | nil => exact hbase
      | cons l rest ih =>
          exact ih _ (Governor.expireOne_inv A gs l hbase)

theorem Governor.mk?_inv (cfg : GovernorConfig) (g0 : Governor)
    (h : Governor.mk? cfg = some g0) : GovInv (cfg.adaptive = none) g0 := by
  unfold Governor.mk? at h
  dsimp only at h
  split at h
  · cases h
  · rename_i oc hoc
    injection h with hg0
    rw [← hg0]
    constructor
    · intro hAn
      dsimp only
      rw [hAn]
    · intro c hc
      dsimp only at hc
      split at hoc
      · have : some none = some oc := hoc
        have hoc' : (none : Option ConcurrencyPool) = oc := by injection this
        rw [← hoc'] at hc
        cases hc
      · rename_i cc
        split at hoc
        · cases hoc
        · rename_i p hp
          have hthis : some (some p) = some oc := hoc
          injection hthis with hoc'
          rw [← hoc'] at hc
          injection hc with hpc
          unfold ConcurrencyPool.mk? at hp
          dsimp only at hp
          split at hp
          · cases hp
          · rename_i hres
            injection hp with hp'
            rw [← hpc, ← hp']
            dsimp only
            refine ⟨by omega, by omega, by omega, fun _ => by omega⟩

unseal Rat.mul Rat.add Rat.sub Rat.inv in
/-- Counterexample to **C2**: with the adaptive controller enabled
(`max_in_flight = 2`, `alpha = 1`, `adjust_interval_ms = 100`), the sequence
fill–fill–deny–tick leaves `in_flight_weight = 2 > effective_max = 1`. -/
theorem C2_invariant_counterexample :
    ((Governor.mk? adaptiveCfg).map (fun g0 =>
      ((Governor.runOps g0 adaptiveOps).concurrency).map
        (fun c => decide (c.inFlightWeight ≤ c.effectiveMax)))) = some (some false) := by
  decide

/-- **C2 (amended).** After every sequence of acquire, release and reaper-sweep
operations, `1 ≤ effective_max ≤ max_weight` always holds, and
`in_flight_weight ≤ effective_max` holds whenever the governor is configured
without the adaptive controller (with the controller, a downward adjustment of
`effective_max` below the current in-flight weight can violate it transiently). -/
theorem C2_invariant_amended (cfg : GovernorConfig) (g0 : Governor) (ops : List GOp)
    (h0 : Governor.mk? cfg = some g0) (c : ConcurrencyPool)
    (hc : (Governor.runOps g0 ops).concurrency = some c) :
    1 ≤ c.effectiveMax ∧ c.effectiveMax ≤ c.maxWeight ∧
      (cfg.adaptive = none → c.inFlightWeight ≤ c.effectiveMax) := by
  have hrun : ∀ (l : List GOp) (gs : Governor), GovInv (cfg.adaptive = none) gs →
      GovInv (cfg.adaptive = none) (List.foldl Governor.applyOp gs l) := by
    intro l
    induction l with
    | nil => exact fun gs hgs => hgs
    | cons op rest ih => exact fun gs hgs => ih _ (Governor.applyOp_inv _ gs op hgs)
  have hinv : GovInv (cfg.adaptive = none) (Governor.runOps g0 ops) :=
    hrun ops g0 (Governor.mk?_inv cfg g0 h0)
  obtain ⟨-, hP⟩ := hinv
  obtain ⟨-, h2, h3, h4⟩ := hP c hc
  exact ⟨h2, h3, h4⟩

unseal Rat.mul Rat.add Rat.sub Rat.inv in
/-- Witness for the amended C2 on the counterexample's configuration stripped of
its adaptive controller: the invariant holds after the same operation sequence. -/
theorem C2_witness :
    (Governor.runOps plainGov adaptiveOps).concurrency = some plainPoolAfter ∧
    (1 ≤ plainPoolAfter.effectiveMax ∧
      plainPoolAfter.effectiveMax ≤ plainPoolAfter.maxWeight ∧
      plainPoolAfter.inFlightWeight ≤ plainPoolAfter.effectiveMax) := by
  have hc : (Governor.runOps plainGov adaptiveOps).concurrency = some plainPoolAfter := by
    decide
  have h := C2_invariant_amended plainCfg plainGov adaptiveOps (by decide) plainPoolAfter hc
  exact ⟨hc, h.1, h.2.1, h.2.2 rfl⟩

/-! ### C7: token reconciliation on release -/

theorem replaceFirstMatch_no_match (id : String) (v : ℕ) (es : List TokenEntry)
    (h : ∀ e ∈ es, e.leaseId ≠ some id) : replaceFirstMatch id v es = es := by
  induction es with
  | nil => rfl
  | cons e rest ih =>
      simp only [replaceFirstMatch]
      rw [if_neg (h e (List.mem_cons_self e rest))]
      rw [ih (fun x hx => h x (List.mem_cons_of_mem e hx))]

theorem replaceFirstMatch_append_no_match (id : String) (v : ℕ) (xs ys : List TokenEntry)
    (h : ∀ e ∈ xs, e.leaseId ≠ some id) :
    replaceFirstMatch id v (xs ++ ys) = xs ++ replaceFirstMatch id v ys := by
  induction xs with
  | nil => rfl
  | cons e rest ih =>
      rw [List.cons_append]
      simp only [replaceFirstMatch]
      rw [if_neg (h e (List.mem_cons_self e rest))]
      rw [ih (fun x hx => h x (List.mem_cons_of_mem e hx)), List.cons_append]

theorem updateLastMatch_no_match (es : List TokenEntry) (id : String) (v : ℕ)
    (h : ∀ e ∈ es, e.leaseId ≠ some id) : updateLastMatch es id v = es := by
  unfold updateLastMatch
  rw [replaceFirstMatch_no_match id v es.reverse (fun e he => h e (List.mem_reverse.mp he))]
  exact List.reverse_reverse es

theorem updateLastMatch_split (l₁ : List TokenEntry) (e : TokenEntry) (l₂ : List TokenEntry)
    (id : String) (v : ℕ) (he : e.leaseId = some id) (h₂ : ∀ x ∈ l₂, x.leaseId ≠ some id) :
    updateLastMatch (l₁ ++ e :: l₂) id v = l₁ ++ { e with tokens := v } :: l₂ := by
  unfold updateLastMatch
  rw [List.reverse_append, List.reverse_cons, List.append_assoc]
  rw [replaceFirstMatch_append_no_match id v l₂.reverse _
    (fun x hx => h₂ x (List.mem_reverse.mp hx))]
  rw [List.singleton_append]
  simp only [replaceFirstMatch]
  rw [if_pos he]
  simp

theorem TokenRatePool.updateActual_no_match (q : TokenRatePool) (id : String) (v : ℕ)
    (h : ∀ e ∈ q.live, e.leaseId ≠ some id) : q.updateActual id v = q := by
  unfold TokenRatePool.updateActual
  rw [updateLastMatch_no_match (q.entries.drop q.head) id v h]
  rw [List.take_append_drop]

theorem TokenRatePool.updateActual_split (q : TokenRatePool) (id : String) (v : ℕ)
    (l₁ : List TokenEntry) (e : TokenEntry) (l₂ : List TokenEntry)
    (hsplit : q.live = l₁ ++ e :: l₂) (he : e.leaseId = some id)
    (h₂ : ∀ x ∈ l₂, x.leaseId ≠ some id) :
    (q.updateActual id v).live = l₁ ++ { e with tokens := v } :: l₂ := by
  have hlen : q.head ≤ q.entries.length := by
    by_contra hlt
    push_neg at hlt
    have hnil : q.live = [] := List.drop_eq_nil_of_le (le_of_lt hlt)
    rw [hsplit] at hnil
    simp at hnil
  have hdl : q.entries.drop q.head = l₁ ++ e :: l₂ := hsplit
  have ht : (q.entries.take q.head).length = q.head := by
    rw [List.length_take]
    exact min_eq_left hlen
  unfold TokenRatePool.updateActual TokenRatePool.live
  dsimp only
  rw [hdl, updateLastMatch_split l₁ e l₂ id v he h₂]
  rw [List.drop_append_of_le_length ht.ge, List.drop_eq_nil_of_le ht.le, List.nil_append]

theorem TokenRatePool.updateActual_sum (q : TokenRatePool) (id : String) (v : ℕ)
    (l₁ : List TokenEntry) (e : TokenEntry) (l₂ : List TokenEntry)
    (hsplit : q.live = l₁ ++ e :: l₂) (he : e.leaseId = some id)
    (h₂ : ∀ x ∈ l₂, x.leaseId ≠ some id) :
    (sumTokens ((q.updateActual id v).live) : ℤ) =
      (sumTokens q.live : ℤ) - (e.tokens : ℤ) + (v : ℤ) := by
  rw [TokenRatePool.updateActual_split q id v l₁ e l₂ hsplit he h₂, hsplit]
  unfold sumTokens
  simp only [List.map_append, List.map_cons, List.sum_append, List.sum_cons]
  push_cast
  ring

set_option maxHeartbeats 1000000 in
theorem Governor.releaseBook_tokenRate_pos (g : Governor) (lease : Lease) (id : String)
    (rpt : Option ReleaseReport) (u : Usage) (tp : TokenRatePool)
    (htp : g.tokenRate = some tp) (hu : rpt.bind ReleaseReport.usage = some u)
    (hpos : 0 < u.promptTokens.getD 0 + u.outputTokens.getD 0) :
    (Governor.releaseBook g lease id rpt).tokenRate =
      some (tp.updateActual id (u.promptTokens.getD 0 + u.outputTokens.getD 0)) := by
  unfold Governor.releaseBook
  dsimp only
  cases hs : g.strict <;>
    cases hc : g.concurrency <;>
    cases hf : g.fairness <;>
    cases ha : g.adaptive <;>
    cases hl : rpt.bind ReleaseReport.latencyMs <;>
    simp [hs, hc, hf, ha, hl, htp, hu, hpos, apply_ite]

/-- C7: counterexample. A governor with a 1000-token/minute pool grants a lease
of 800 estimated tokens; releasing it with reported usage of 0 prompt and 0
output tokens leaves the live entry at 800 tokens. The spec requires the entry's
tokens to be replaced by `promptTokens + outputTokens = 0` with "no clamp in
either direction", but the code guards the update with `actualTokens > 0` and
skips zero-usage reports entirely. -/
theorem C7_token_reconciliation_counterexample :
    ((Governor.mk? tokenCfg).map (fun g0 =>
      match ((g0.acquire 0 "L1" tokenReq).2).release 1 "L1" (some zeroUsageRpt) with
      | Except.ok g2 => some (g2.tokenRate.map (fun tp => tp.live.map TokenEntry.tokens))
      | Except.error _ => none))
      = some (some (some [800])) ∧ [800] ≠ [0 + 0] := by
  exact ⟨by decide, by decide⟩

/-- C7 (amended): when `release` carries a usage report with
`promptTokens + outputTokens > 0` for a lease held in the store and token-rate is
configured, the pool's `updateActual` runs with that sum; and `updateActual`
replaces the tokens of the last entry whose `leaseId` matches (searching from the
tail) by exactly that sum with no clamp — freeing the full difference from the
live-window total — and is a no-op when no live entry matches (already pruned).
Zero-usage reports are skipped by the `actualTokens > 0` guard (see the
counterexample). -/
theorem C7_token_reconciliation_amended (g : Governor) (now : ℤ) (leaseId : String)
    (rpt : ReleaseReport) (u : Usage) (tp : TokenRatePool) (lease : Lease) (s' : LeaseStore)
    (hu : rpt.usage = some u)
    (htp : g.tokenRate = some tp)
    (hrem : g.store.remove leaseId = (some lease, s'))
    (hpos : 0 < u.promptTokens.getD 0 + u.outputTokens.getD 0)
    (hstrict : g.strict = true → leaseId ∉ g.releasedIds) :
    (∃ g', g.release now leaseId (some rpt) = Except.ok g' ∧
       g'.tokenRate =
         some (tp.updateActual leaseId (u.promptTokens.getD 0 + u.outputTokens.getD 0))) ∧
    (∀ (q : TokenRatePool) (id : String) (v : ℕ),
       ((∀ e ∈ q.live, e.leaseId ≠ some id) → q.updateActual id v = q) ∧
       (∀ (l₁ : List TokenEntry) (e : TokenEntry) (l₂ : List TokenEntry),
          q.live = l₁ ++ e :: l₂ → e.leaseId = some id →
          (∀ x ∈ l₂, x.leaseId ≠ some id) →
          (q.updateActual id v).live = l₁ ++ { e with tokens := v } :: l₂ ∧
          (sumTokens ((q.updateActual id v).live) : ℤ) =
            (sumTokens q.live : ℤ) - (e.tokens : ℤ) + (v : ℤ))) := by
  constructor
  · unfold Governor.release
    rw [if_neg (fun hcon => hstrict hcon.1 hcon.2)]
    rw [hrem]
    refine ⟨_, rfl, ?_⟩
    exact Governor.releaseBook_tokenRate_pos _ lease leaseId (some rpt) u tp htp hu hpos
  · intro q id v
    refine ⟨fun h => TokenRatePool.updateActual_no_match q id v h, ?_⟩
    intro l₁ e l₂ hsplit he h₂
    exact ⟨TokenRatePool.updateActual_split q id v l₁ e l₂ hsplit he h₂,
           TokenRatePool.updateActual_sum q id v l₁ e l₂ hsplit he h₂⟩

/-- C7 witness: on `tokGov`, releasing `"L1"` with 500+100 actual tokens applies
`updateActual "L1" 600` to the pool. -/
theorem C7_witness :
    ∃ g', tokGov.release 1 "L1" (some posUsageRpt) = Except.ok g' ∧
      g'.tokenRate = some (TokenRatePool.updateActual tokPool "L1" 600) := by
  have h := C7_token_reconciliation_amended tokGov 1 "L1" posUsageRpt
    { promptTokens := some 500, outputTokens := some 100 } tokPool tokLease
    { leases := [], byIdempotency := [] }
    rfl rfl (by decide) (by decide) (by decide)
  exact h.1

/-! ### C8: idempotent acquire -/

theorem mapGet_mem {α : Type} (m : List (String × α)) (k : String) (v : α)
    (h : mapGet m k = some v) : (k, v) ∈ m := by
  induction m with
  | nil => simp [mapGet] at h
  | cons kv rest ih =>
      unfold mapGet at h
      by_cases hk : kv.1 = k
      · rw [if_pos hk] at h
        injection h with hv
        obtain ⟨a, b⟩ := kv
        dsimp at hk hv
        subst hk
        subst hv
        exact List.mem_cons_self _ _
      · rw [if_neg hk] at h
        exact List.mem_cons_of_mem _ (ih h)

theorem LeaseStore.getByIdem_hit (s : LeaseStore) (k : String) (L : Lease)
    (h : (s.getByIdempotencyKey k).1 = some L) :
    (s.getByIdempotencyKey k).2 = s ∧
    ∃ lid, mapGet s.byIdempotency k = some lid ∧ mapGet s.leases lid = some L := by
  unfold LeaseStore.getByIdempotencyKey at h ⊢
  cases hm : mapGet s.byIdempotency k with
  | none =>
      rw [hm] at h
      simp at h
  | some lid =>
      cases hm2 : mapGet s.leases lid with
      | none =>
          simp only [hm, hm2] at h
          simp at h
      | some l =>
          simp only [hm, hm2] at h
          simp at h
          simp only [hm, hm2]
          exact ⟨trivial, lid, rfl, by rw [hm2, h]⟩

theorem LeaseStore.remove_found (s : LeaseStore) (id : String) (L : Lease)
    (h : mapGet s.leases id = some L) :
    ∃ s3, s.remove id = (some L, s3) ∧ s3.leases = mapDelete s.leases id := by
  unfold LeaseStore.remove
  rw [h]
  cases h2 : truthyKey L.idempotencyKey <;> simp only [h2] <;> exact ⟨_, rfl, rfl⟩

set_option maxHeartbeats 1000000 in
theorem Governor.releaseBook_strict (g : Governor) (lease : Lease) (id : String)
    (rpt : Option ReleaseReport) :
    (Governor.releaseBook g lease id rpt).strict = g.strict := by
  unfold Governor.releaseBook
  dsimp only
  repeat' split <;> try rfl

set_option maxHeartbeats 1000000 in
theorem Governor.releaseBook_store (g : Governor) (lease : Lease) (id : String)
    (rpt : Option ReleaseReport) :
    (Governor.releaseBook g lease id rpt).store = g.store := by
  unfold Governor.releaseBook
  dsimp only
  repeat' split <;> try rfl

theorem Governor.release_miss (g : Governor) (now : ℤ) (id : String)
    (rpt : Option ReleaseReport) (hs : g.strict = false)
    (hm : mapGet g.store.leases id = none) :
    g.release now id rpt = Except.ok g := by
  have hrem : g.store.remove id = (none, g.store) := by
    unfold LeaseStore.remove
    rw [hm]
  unfold Governor.release
  rw [if_neg (by simp [hs]), hrem]
  dsimp only
  rw [if_neg (by simp [hs])]

/-- C8: a second acquire carrying the same idempotency key while the lease of the
first is still live returns `granted` with the same lease id and expiry, changes
no in-flight weight, request-rate state, token-rate state, or fairness state (and
leaves the store untouched); releasing that lease once then frees its weight from
the concurrency pool once, and an immediate second release of the same id is an
exact no-op. -/
theorem C8_idempotent_acquire (g : Governor) (now now2 : ℤ) (fid : String)
    (req : AcquireRequest) (k : String) (L : Lease)
    (hk : req.idempotencyKey = some k) (hk0 : k ≠ "")
    (hwf : g.store.WF)
    (hlive : (g.store.getByIdempotencyKey k).1 = some L)
    (hs : g.strict = false) :
    (g.acquire now fid req).1 = AcquireDecision.granted L.leaseId L.expiresAt ∧
    ((g.acquire now fid req).2.obsInFlight = g.obsInFlight ∧
     (g.acquire now fid req).2.rate = g.rate ∧
     (g.acquire now fid req).2.tokenRate = g.tokenRate ∧
     (g.acquire now fid req).2.fairness = g.fairness ∧
     (g.acquire now fid req).2.store = g.store) ∧
    (∃ g3, (g.acquire now fid req).2.release now2 L.leaseId none = Except.ok g3 ∧
       g3.concurrency =
         (g.acquire now fid req).2.concurrency.map (fun c => c.release L.weight) ∧
       g3.release now2 L.leaseId none = Except.ok g3) := by
  have htr : truthyKey req.idempotencyKey = some k := by
    rw [hk]
    simp only [truthyKey]
    rw [if_neg hk0]
  obtain ⟨hsnd, lid, hbi, hfindlid⟩ := LeaseStore.getByIdem_hit g.store k L hlive
  have hLid : L.leaseId = lid := hwf.2 (lid, L) (mapGet_mem g.store.leases lid L hfindlid)
  have hfind : mapGet g.store.leases L.leaseId = some L := by
    rw [hLid]
    exact hfindlid
  have hpair : g.store.getByIdempotencyKey k = (some L, g.store) :=
    Prod.ext_iff.mpr ⟨hlive, hsnd⟩
  have hidem : (g.applyTick now).idemLookup req.idempotencyKey =
      (some L, g.applyTick now) := by
    unfold Governor.idemLookup
    rw [htr]
    dsimp only
    rw [Governor.applyTick_store, hpair]
    rw [← Governor.applyTick_store g now]
  have hacq : g.acquire now fid req =
      (AcquireDecision.granted L.leaseId L.expiresAt, g.applyTick now) := by
    unfold Governor.acquire
    dsimp only
    rw [hidem]
  rw [hacq]
  refine ⟨rfl, ⟨Governor.applyTick_obsInFlight g now, by simp, by simp, by simp, by simp⟩, ?_⟩
  have hfind' : mapGet (g.applyTick now).store.leases L.leaseId = some L := by
    rw [Governor.applyTick_store]
    exact hfind
  obtain ⟨s3, hrem3, hs3⟩ := LeaseStore.remove_found (g.applyTick now).store L.leaseId L hfind'
  have hrel : (g.applyTick now).release now2 L.leaseId none =
      Except.ok (Governor.releaseBook { g.applyTick now with store := s3 } L L.leaseId none) := by
    unfold Governor.release
    rw [if_neg (by simp [hs]), hrem3]
  refine ⟨Governor.releaseBook { g.applyTick now with store := s3 } L L.leaseId none,
    hrel, ?_, ?_⟩
  · rw [Governor.releaseBook_concurrency]
  · have hstrict3 :
        (Governor.releaseBook { g.applyTick now with store := s3 } L L.leaseId none).strict
          = false := by
      rw [Governor.releaseBook_strict]
      simp [hs]
    have hmiss :
        mapGet (Governor.releaseBook { g.applyTick now with store := s3 } L L.leaseId
          none).store.leases L.leaseId = none := by
      rw [Governor.releaseBook_store]
      show mapGet s3.leases L.leaseId = none
      rw [hs3]
      apply mapGet_mapDelete_self
      rw [Governor.applyTick_store]
      exact hwf.1
    exact Governor.release_miss _ now2 L.leaseId none hstrict3 hmiss

/-- C8 witness: on `idemGov`, an acquire with key `"K"` is granted lease `"L1"`
with the original expiry, in-flight weight stays 1, and one release frees the
weight while a second is a no-op. -/
theorem C8_witness :
    (idemGov.acquire 5 "L2" idemReq).1 = AcquireDecision.granted "L1" 60000 ∧
    (idemGov.acquire 5 "L2" idemReq).2.obsInFlight = some 1 ∧
    ∃ g3, (idemGov.acquire 5 "L2" idemReq).2.release 7 "L1" none = Except.ok g3 ∧
      g3.concurrency =
        (idemGov.acquire 5 "L2" idemReq).2.concurrency.map (fun c => c.release 1) ∧
      g3.release 7 "L1" none = Except.ok g3 := by
  have h := C8_idempotent_acquire idemGov 5 7 "L2" idemReq "K" idemLease rfl (by decide)
    ⟨by decide, by decide⟩ (by decide) rfl
  refine ⟨h.1, ?_, ?_⟩
  · rw [h.2.1.1]
    decide
  · exact h.2.2

/-! ### C10: equivalence of the two TokenRatePool implementations -/

theorem sumTokens_cons (e : TokenEntry) (l : List TokenEntry) :
    sumTokens (e :: l) = e.tokens + sumTokens l := by
  simp [sumTokens]

theorem tokenPruneCount_le (c : ℤ) (l : List TokenEntry) :
    tokenPruneCount c l ≤ l.length := by
  induction l with
  | nil => simp [tokenPruneCount]
  | cons e rest ih =>
      by_cases h : e.timestamp ≤ c
      · simp only [tokenPruneCount, if_pos h, List.length_cons]
        omega
      · simp only [tokenPruneCount, if_neg h]
        exact Nat.zero_le _

theorem TokenRatePoolShift.pruneList_eq_dropWhile (c : ℤ) (l : List TokenEntry) :
    TokenRatePoolShift.pruneList c l = l.dropWhile (fun e => decide (e.timestamp ≤ c)) := by
  induction l with
  | nil => rfl
  | cons e rest ih =>
      by_cases h : e.timestamp ≤ c <;>
        simp [TokenRatePoolShift.pruneList, List.dropWhile_cons, h, ih]

theorem TokenRatePool.prune_head_le (p : TokenRatePool) (now : ℤ)
    (h : p.head ≤ p.entries.length) :
    (p.prune now).head ≤ (p.prune now).entries.length := by
  unfold TokenRatePool.prune
  dsimp only
  split
  · exact Nat.zero_le _
  · dsimp only
    have h1 := tokenPruneCount_le (now - p.windowMs) (p.entries.drop p.head)
    have h2 : (p.entries.drop p.head).length = p.entries.length - p.head :=
      List.length_drop _ _
    omega

theorem replaceFirstMatch_length (id : String) (v : ℕ) (l : List TokenEntry) :
    (replaceFirstMatch id v l).length = l.length := by
  induction l with
  | nil => rfl
  | cons e rest ih =>
      by_cases h : e.leaseId = some id <;> simp [replaceFirstMatch, h, ih]

theorem updateLastMatch_length (es : List TokenEntry) (id : String) (v : ℕ) :
    (updateLastMatch es id v).length = es.length := by
  unfold updateLastMatch
  rw [List.length_reverse, replaceFirstMatch_length, List.length_reverse]

theorem TokenRatePool.updateActual_live_eq (p : TokenRatePool) (id : String) (v : ℕ)
    (h : p.head ≤ p.entries.length) :
    (p.updateActual id v).live = updateLastMatch p.live id v := by
  have ht : (p.entries.take p.head).length = p.head := by
    rw [List.length_take]
    exact min_eq_left h
  unfold TokenRatePool.updateActual TokenRatePool.live
  dsimp only
  rw [List.drop_append_of_le_length ht.ge, List.drop_eq_nil_of_le ht.le, List.nil_append]

theorem TokenRatePool.updateActual_head_le (p : TokenRatePool) (id : String) (v : ℕ)
    (h : p.head ≤ p.entries.length) :
    (p.updateActual id v).head ≤ (p.updateActual id v).entries.length := by
  unfold TokenRatePool.updateActual
  dsimp only
  rw [List.length_append, updateLastMatch_length, List.length_take, List.length_drop]
  omega

theorem TokenRatePool.record_live (p : TokenRatePool) (now : ℤ) (est : ℕ)
    (lid : Option String) (h : p.head ≤ p.entries.length) :
    (p.record now est lid).live =
      p.live ++ [{ timestamp := now, tokens := est, leaseId := lid }] := by
  unfold TokenRatePool.record TokenRatePool.live
  dsimp only
  rw [List.drop_append_of_le_length h]

theorem retryWalk_ne_none (now w s : ℤ) (l : List TokenEntry) (acc : ℤ)
    (hle : s ≤ acc + (sumTokens l : ℤ)) (hgt : acc < s) :
    retryWalk now w s l acc ≠ none := by
  induction l generalizing acc with
  | nil =>
      rw [sumTokens] at hle
      simp at hle
      omega
  | cons e rest ih =>
      unfold retryWalk
      dsimp only
      by_cases hc : s ≤ acc + (e.tokens : ℤ)
      · rw [if_pos hc]
        simp
      · rw [if_neg hc]
        apply ih
        · rw [sumTokens_cons] at hle
          push_cast at hle
          omega
        · omega

theorem computeRetry_eq (pH : TokenRatePool) (pS : TokenRatePoolShift) (now : ℤ) (est : ℕ)
    (hlive : pH.live = pS.entries) (hlim : pH.limit = pS.limit)
    (hwin : pH.windowMs = pS.windowMs) (hest : est ≤ pS.limit) :
    pH.computeRetryMs now est = pS.computeRetryMs now est := by
  unfold TokenRatePool.computeRetryMs TokenRatePoolShift.computeRetryMs
  dsimp only
  rw [hlive, hlim, hwin]
  by_cases hs : (sumTokens pS.entries : ℤ) + (est : ℤ) - (pS.limit : ℤ) ≤ 0
  · rw [if_pos hs, if_pos hs]
  · rw [if_neg hs, if_neg hs]
    cases hw : retryWalk now pS.windowMs
        ((sumTokens pS.entries : ℤ) + (est : ℤ) - (pS.limit : ℤ)) pS.entries 0 with
    | some v => rfl
    | none =>
        exact absurd hw (retryWalk_ne_none now pS.windowMs _ pS.entries 0
          (by omega) (by omega))

theorem tryAcquire_sim (pH : TokenRatePool) (pS : TokenRatePoolShift) (now : ℤ) (est : ℕ)
    (hInv : pH.head ≤ pH.entries.length)
    (hlive : pH.live = pS.entries) (hlim : pH.limit = pS.limit)
    (hwin : pH.windowMs = pS.windowMs) (hest : est ≤ pS.limit) :
    (pH.tryAcquire now est).1 = (pS.tryAcquire now est).1 ∧
    ((pH.tryAcquire now est).2).head ≤ ((pH.tryAcquire now est).2).entries.length ∧
    ((pH.tryAcquire now est).2).live = ((pS.tryAcquire now est).2).entries ∧
    ((pH.tryAcquire now est).2).limit = ((pS.tryAcquire now est).2).limit ∧
    ((pS.tryAcquire now est).2).limit = pS.limit ∧
    ((pH.tryAcquire now est).2).windowMs = ((pS.tryAcquire now est).2).windowMs := by
  have hl' : (pH.prune now).live = (pS.prune now).entries := by
    rw [TokenRatePool.prune_live_token]
    show _ = TokenRatePoolShift.pruneList (now - pS.windowMs) pS.entries
    rw [TokenRatePoolShift.pruneList_eq_dropWhile, hlive, hwin]
  have hInv' := TokenRatePool.prune_head_le pH now hInv
  have hlimH : (pH.prune now).limit = pH.limit := TokenRatePool.prune_limit_token pH now
  have hlimS : (pS.prune now).limit = pS.limit := rfl
  have hlim' : (pH.prune now).limit = (pS.prune now).limit := by
    rw [hlimH, hlimS, hlim]
  have hwin' : (pH.prune now).windowMs = (pS.prune now).windowMs := by
    rw [TokenRatePool.prune_windowMs_token]
    exact hwin
  unfold TokenRatePool.tryAcquire TokenRatePoolShift.tryAcquire
  dsimp only
  by_cases hc : (pS.prune now).limit < sumTokens ((pS.prune now).entries) + est
  · have hcH : (pH.prune now).limit < sumTokens ((pH.prune now).live) + est := by
      rw [hlim', hl']
      exact hc
    rw [if_pos hcH, if_pos hc]
    refine ⟨?_, hInv', hl', hlim', hlimS, hwin'⟩
    rw [computeRetry_eq (pH.prune now) (pS.prune now) now est hl' hlim' hwin'
      (hlimS ▸ hest)]
  · have hcH : ¬ (pH.prune now).limit < sumTokens ((pH.prune now).live) + est := by
      rw [hlim', hl']
      exact hc
    rw [if_neg hcH, if_neg hc]
    exact ⟨rfl, hInv', hl', hlim', hlimS, hwin'⟩

theorem currentTokens_sim (pH : TokenRatePool) (pS : TokenRatePoolShift) (now : ℤ)
    (hInv : pH.head ≤ pH.entries.length)
    (hlive : pH.live = pS.entries) (hlim : pH.limit = pS.limit)
    (hwin : pH.windowMs = pS.windowMs) :
    (pH.currentTokens now).1 = (pS.currentTokens now).1 ∧
    ((pH.currentTokens now).2).head ≤ ((pH.currentTokens now).2).entries.length ∧
    ((pH.currentTokens now).2).live = ((pS.currentTokens now).2).entries ∧
    ((pH.currentTokens now).2).limit = ((pS.currentTokens now).2).limit ∧
    ((pS.currentTokens now).2).limit = pS.limit ∧
    ((pH.currentTokens now).2).windowMs = ((pS.currentTokens now).2).windowMs := by
  have hl' : (pH.prune now).live = (pS.prune now).entries := by
    rw [TokenRatePool.prune_live_token]
    show _ = TokenRatePoolShift.pruneList (now - pS.windowMs) pS.entries
    rw [TokenRatePoolShift.pruneList_eq_dropWhile, hlive, hwin]
  have hInv' := TokenRatePool.prune_head_le pH now hInv
  have hlim' : (pH.prune now).limit = (pS.prune now).limit := by
    rw [TokenRatePool.prune_limit_token]
    exact hlim
  have hwin' : (pH.prune now).windowMs = (pS.prune now).windowMs := by
    rw [TokenRatePool.prune_windowMs_token]
    exact hwin
  unfold TokenRatePool.currentTokens TokenRatePoolShift.currentTokens
  dsimp only
  exact ⟨by rw [hl'], hInv', hl', hlim', rfl, hwin'⟩

theorem step_sim (pH : TokenRatePool) (pS : TokenRatePoolShift) (op : TOp)
    (hInv : pH.head ≤ pH.entries.length)
    (hlive : pH.live = pS.entries) (hlim : pH.limit = pS.limit)
    (hwin : pH.windowMs = pS.windowMs)
    (hest : ∀ now est, op = TOp.tryAcq now est → est ≤ pS.limit) :
    (pH.step op).2 = (pS.step op).2 ∧
    (pH.step op).1.head ≤ (pH.step op).1.entries.length ∧
    (pH.step op).1.live = (pS.step op).1.entries ∧
    (pH.step op).1.limit = (pS.step op).1.limit ∧
    (pS.step op).1.limit = pS.limit ∧
    (pH.step op).1.windowMs = (pS.step op).1.windowMs := by
  cases op with
  | tryAcq now est =>
      have h := tryAcquire_sim pH pS now est hInv hlive hlim hwin (hest now est rfl)
      unfold TokenRatePool.step TokenRatePoolShift.step
      dsimp only
      exact ⟨by rw [h.1], h.2.1, h.2.2.1, h.2.2.2.1, h.2.2.2.2.1, h.2.2.2.2.2⟩
  | push now est lid =>
      unfold TokenRatePool.step TokenRatePoolShift.step
      dsimp only
      refine ⟨rfl, ?_, ?_, hlim, rfl, hwin⟩
      · unfold TokenRatePool.record
        dsimp only
        rw [List.length_append]
        omega
      · rw [TokenRatePool.record_live pH now est lid hInv, hlive]
        rfl
  | update lid act =>
      unfold TokenRatePool.step TokenRatePoolShift.step
      dsimp only
      refine ⟨rfl, TokenRatePool.updateActual_head_le pH lid act hInv, ?_, hlim, rfl, hwin⟩
      rw [TokenRatePool.updateActual_live_eq pH lid act hInv, hlive]
      rfl
  | current now =>
      have h := currentTokens_sim pH pS now hInv hlive hlim hwin
      unfold TokenRatePool.step TokenRatePoolShift.step
      dsimp only
      exact ⟨by rw [h.1], h.2.1, h.2.2.1, h.2.2.2.1, h.2.2.2.2.1, h.2.2.2.2.2⟩
  | readLimit =>
      unfold TokenRatePool.step TokenRatePoolShift.step
      dsimp only
      exact ⟨by rw [hlim], hInv, hlive, hlim, rfl, hwin⟩

unseal Rat.mul Rat.add Rat.sub Rat.inv in
/-- C10: counterexample. Starting from empty pools with limit 1000 and window
60000, push one 100-token entry at t=0, then try to acquire 2000 tokens at
t=100000. The head-pointer version's retry fallback reads the last entry of its
backing array — a dead, already-pruned entry — yielding a stale hint that clamps
to 25 ms, while the shift version's fallback sees an empty array and returns the
window length, clamping to 5000 ms. The two implementations are therefore not
observationally equivalent. -/
theorem C10_equivalence_counterexample :
    TokenRatePool.runOut { limit := 1000, windowMs := 60000, entries := [], head := 0 }
        [TOp.push 0 100 none, TOp.tryAcq 100000 2000] ≠
      TokenRatePoolShift.runOut { limit := 1000, windowMs := 60000, entries := [] }
        [TOp.push 0 100 none, TOp.tryAcq 100000 2000] := by
  decide

/-- C10 (amended): the two implementations are observationally equivalent on
every call sequence in which each `tryAcquire` estimate is at most the pool
limit (the oldest-first retry walk then always terminates before either
divergent fallback is consulted). Relating states: the head-pointer version's
entries from `head` onward equal the shift version's entries, and limits and
windows agree. -/
theorem C10_equivalence_amended (pH : TokenRatePool) (pS : TokenRatePoolShift)
    (ops : List TOp)
    (hInv : pH.head ≤ pH.entries.length)
    (hlive : pH.live = pS.entries)
    (hlim : pH.limit = pS.limit)
    (hwin : pH.windowMs = pS.windowMs)
    (hest : ∀ now est, TOp.tryAcq now est ∈ ops → est ≤ pS.limit) :
    TokenRatePool.runOut pH ops = TokenRatePoolShift.runOut pS ops := by
  have main : ∀ (l : List TOp) (qH : TokenRatePool) (qS : TokenRatePoolShift),
      qH.head ≤ qH.entries.length → qH.live = qS.entries → qH.limit = qS.limit →
      qH.windowMs = qS.windowMs → (∀ now est, TOp.tryAcq now est ∈ l → est ≤ qS.limit) →
      TokenRatePool.runOut qH l = TokenRatePoolShift.runOut qS l := by
    intro l
    induction l with
    | nil => intro qH qS _ _ _ _ _; rfl
    | cons op rest ih =>
        intro qH qS hInv1 hlive1 hlim1 hwin1 hest1
        have hsim := step_sim qH qS op hInv1 hlive1 hlim1 hwin1
          (fun now est hop => hest1 now est (hop ▸ List.mem_cons_self op rest))
        unfold TokenRatePool.runOut TokenRatePoolShift.runOut
        dsimp only
        rw [hsim.1]
        have htail := ih (qH.step op).1 (qS.step op).1 hsim.2.1 hsim.2.2.1
          hsim.2.2.2.1 hsim.2.2.2.2.2
          (fun now est hmem => by
            rw [hsim.2.2.2.2.1]
            exact hest1 now est (List.mem_cons_of_mem op hmem))
        rw [htail]
  exact main ops pH pS hInv hlive hlim hwin hest

/-- C10 witness: a push, an in-limit tryAcquire and a currentTokens read produce
identical outputs on both implementations. -/
theorem C10_witness :
    TokenRatePool.runOut { limit := 1000, windowMs := 60000, entries := [], head := 0 }
        [TOp.push 0 100 none, TOp.tryAcq 50000 500, TOp.current 50000] =
      TokenRatePoolShift.runOut { limit := 1000, windowMs := 60000, entries := [] }
        [TOp.push 0 100 none, TOp.tryAcq 50000 500, TOp.current 50000] := by
  apply C10_equivalence_amended
  · decide
  · rfl
  · rfl
  · rfl
  · intro now est h
    simp at h
    obtain ⟨h1, h2⟩ := h
    subst h2
    decide

end ThrottleAI
